import Mathlib

/-!
Verification development for the `connectwithgandhi` visualization code base.

The JavaScript sources are shallowly embedded as Lean definitions:

* JS strings are modelled as `String`, except where a claim depends on
  per-character transformations (search, colors), where `List Char` is used.
* JS numbers are modelled as `Int` where the program only stores and compares
  integers, and as `ℚ` where the program divides (layout coordinates,
  averages, color amounts).  No rounding of the model is performed beyond the
  explicit `Math.round` calls of the source, which are modelled exactly.
* JS truthiness tests on numbers (`if (x)`, `x || d`) are modelled explicitly:
  a number is falsy exactly when it is `0` (or absent).
* DOM / SVG side effects and the d3 force simulation are rendering state and
  are not touched by any of the verified functions' data logic; they are
  omitted.  Effectful entry points (`init`) are modelled as state
  transformers over an explicit view-state record.
-/

namespace GandhiViz

/-- JS `Math.round`: round half toward positive infinity. -/
def jsRound (q : ℚ) : ℤ := ⌊q + 1/2⌋

/-- JS truthiness of an optional number: `undefined`/`null` and `0` are falsy.
`jsNum o = some y` exactly when the JS value is a truthy number `y`. -/
def jsNum (o : Option Int) : Option Int :=
  match o with
  | some y => if y = 0 then none else some y
  | none => none

/-! ## Data model shared by `src/graph.js` and `src/radial.js`

Nodes of `nodes.json`.  `label` and `properties.name` are kept as `List Char`
because `searchNode` lower-cases them character by character. -/

structure GProps where
  year : Option Int
  avgYear : Option Int
  name : Option (List Char)
  category : Option String
  subcategory : Option String
  documentCount : Option Int
deriving Repr, DecidableEq

/-- A node with all optional properties absent. -/
def GProps.empty : GProps :=
  { year := none, avgYear := none, name := none, category := none,
    subcategory := none, documentCount := none }

structure GNode where
  id : String
  type : String
  label : List Char
  properties : Option GProps
deriving Repr, DecidableEq

structure GEdge where
  id : String
  source : String
  target : String
deriving Repr, DecidableEq

/-- `node.properties?.year` (optional chaining). -/
def propsYear (n : GNode) : Option Int := n.properties.bind (·.year)

/-- `node.properties?.avgYear`. -/
def propsAvgYear (n : GNode) : Option Int := n.properties.bind (·.avgYear)

/-- `node.properties?.name`. -/
def propsName (n : GNode) : Option (List Char) := n.properties.bind (·.name)

/-! ## `KnowledgeGraph` state (`src/graph.js`) -/

structure GFilters where
  types : List String
  year : Option Int
deriving Repr, DecidableEq

structure GraphState where
  nodes : List GNode
  edges : List GEdge
  originalNodes : List GNode
  originalEdges : List GEdge
  filters : GFilters
deriving Repr, DecidableEq

/-! ### `KnowledgeGraph.calculateAverageYears` (graph.js:207-248)

The source accumulates, per edge, the year of a document endpoint into
dictionaries keyed by the id of the theme/person endpoint, then averages. -/

/-- The per-edge `(key, year)` credits accumulated into `yearSums`/`yearCounts`
(graph.js:221-238).  `find?` models `this.nodes.find(n => n.id === ...)`. -/
def edgeCredits (nodes : List GNode) (e : GEdge) : List (String × Int) :=
  let sourceNode := nodes.find? (fun n => n.id = e.source)
  let targetNode := nodes.find? (fun n => n.id = e.target)
  (match sourceNode, targetNode with
   | some sn, some tn =>
     if sn.type = "document" then
       match jsNum (propsYear sn) with
       | some y => if tn.type = "theme" ∨ tn.type = "person" then [(tn.id, y)] else []
       | none => []
     else []
   | _, _ => []) ++
  (match sourceNode, targetNode with
   | some sn, some tn =>
     if tn.type = "document" then
       match jsNum (propsYear tn) with
       | some y => if sn.type = "theme" ∨ sn.type = "person" then [(sn.id, y)] else []
       | none => []
     else []
   | _, _ => [])

/-- All credits over the edge list, in edge order. -/
def allCredits (nodes : List GNode) (edges : List GEdge) : List (String × Int) :=
  edges.flatMap (edgeCredits nodes)

/-- `yearSums[id]` at the end of the accumulation loop. -/
def yearSum (nodes : List GNode) (edges : List GEdge) (id : String) : Int :=
  (((allCredits nodes edges).filter (fun c => c.1 = id)).map (·.2)).sum

/-- `yearCounts[id]` at the end of the accumulation loop. -/
def yearCount (nodes : List GNode) (edges : List GEdge) (id : String) : Nat :=
  ((allCredits nodes edges).filter (fun c => c.1 = id)).length

/-- `if (!node.properties) node.properties = {}; node.properties.avgYear = v`. -/
def setAvgYear (n : GNode) (v : Int) : GNode :=
  { n with properties := some { n.properties.getD GProps.empty with avgYear := some v } }

/-- `KnowledgeGraph.calculateAverageYears` (graph.js:207-248) as a function of
the node and edge lists: themes and people with at least one accumulated
document year receive `avgYear = Math.round(sum / count)`. -/
def calculateAverageYears (nodes : List GNode) (edges : List GEdge) : List GNode :=
  nodes.map (fun n =>
    if (n.type = "theme" ∨ n.type = "person") ∧ 0 < yearCount nodes edges n.id then
      setAvgYear n (jsRound ((yearSum nodes edges n.id : ℚ) / (yearCount nodes edges n.id : ℚ)))
    else n)

/-- `KnowledgeGraph.loadData` (graph.js:165-205): stores the raw lists, copies
the nodes into the working list and runs `calculateAverageYears`.  The random
initial x/y spread is force-simulation rendering state and is not modelled. -/
def loadData (st : GraphState) (nodes : List GNode) (edges : List GEdge) : GraphState :=
  { st with
    originalNodes := nodes
    originalEdges := edges
    nodes := calculateAverageYears nodes edges
    edges := edges }

/-! ### `KnowledgeGraph.applyFilters` (graph.js:461-533) -/

/-- The node predicate of `applyFilters` (graph.js:473-504). -/
def keepNode (f : GFilters) (n : GNode) : Bool :=
  if n.type = "document" then
    -- documents are always shown, except past an active year cutoff
    match jsNum f.year, jsNum (propsYear n) with
    | some fy, some ny => decide ¬(ny > fy)
    | _, _ => true
  else if ¬ (f.types.contains n.type) then false
  else
    match jsNum f.year with
    | none => true
    | some fy =>
      if n.type = "period" then
        match jsNum (propsYear n) with
        | some ny => decide ¬(ny > fy)
        | none => true
      else
        match jsNum (propsYear n) with
        | some ny => decide ¬(ny > fy)
        | none => true

/-- `KnowledgeGraph.applyFilters` (graph.js:461-533).  Nodes are re-filtered
from `originalNodes`; edges are re-filtered from `originalEdges` to those
whose two endpoint ids are both among the filtered nodes.  (The position
save/restore of the source only moves rendering coordinates.) -/
def applyFilters (st : GraphState) (f : GFilters) : GraphState :=
  let nodes := st.originalNodes.filter (keepNode f)
  let nodeIds := nodes.map (·.id)
  let edges := st.originalEdges.filter
    (fun e => nodeIds.contains e.source && nodeIds.contains e.target)
  { st with filters := f, nodes := nodes, edges := edges }

/-! ### Timeline coordinates (graph.js:114-163) -/

/-- The `year` chosen by `getTimelineX` for a node (graph.js:120-134):
periods, documents and events use `properties?.year || 1884`; themes and
people use `properties?.avgYear || 1906.5`; anything else uses the middle of
the timeline. -/
def timelineYear (n : GNode) : ℚ :=
  let minYear : ℚ := 1884
  let maxYear : ℚ := 1929
  if n.type = "period" then
    match jsNum (propsYear n) with
    | some y => (y : ℚ)
    | none => minYear
  else if n.type = "document" ∨ n.type = "event" then
    match jsNum (propsYear n) with
    | some y => (y : ℚ)
    | none => minYear
  else if n.type = "theme" ∨ n.type = "person" then
    match jsNum (propsAvgYear n) with
    | some y => (y : ℚ)
    | none => minYear + (maxYear - minYear) / 2
  else
    (minYear + maxYear) / 2

/-- `KnowledgeGraph.getTimelineX` (graph.js:114-142). -/
def getTimelineX (width : ℚ) (n : GNode) : ℚ :=
  let minYear : ℚ := 1884
  let maxYear : ℚ := 1929
  let margin : ℚ := 100
  let year := timelineYear n
  let yearRange := maxYear - minYear
  let xRange := width - 2 * margin
  margin + ((year - minYear) / yearRange) * xRange

/-- `KnowledgeGraph.getTimelineY` (graph.js:144-163): one vertical lane per
node type. -/
def getTimelineY (height : ℚ) (n : GNode) : ℚ :=
  let centerY := height / 2
  let verticalSpacing := height / 6
  if n.type = "event" then centerY - verticalSpacing * (3/2)
  else if n.type = "person" then centerY - verticalSpacing * (1/2)
  else if n.type = "document" then centerY
  else if n.type = "theme" then centerY + verticalSpacing * (1/2)
  else if n.type = "period" then centerY + verticalSpacing * (3/2)
  else centerY

/-! ### `KnowledgeGraph.searchNode` (graph.js:583-590) -/

/-- JS `String.prototype.toLowerCase`, characterwise (the repository's data is
ASCII). -/
def jsLower (s : List Char) : List Char := s.map Char.toLower

/-- Does `hay` start with `needle`? -/
def jsStartsWith : List Char → List Char → Bool
  | _, [] => true
  | [], _ :: _ => false
  | c :: t, d :: ds => c = d && jsStartsWith t ds

/-- JS `String.prototype.includes`: contiguous substring test. -/
def jsIncludes (hay needle : List Char) : Bool :=
  jsStartsWith hay needle ||
    match hay with
    | [] => false
    | _ :: t => jsIncludes t needle

/-- `KnowledgeGraph.searchNode` (graph.js:583-590): case-insensitive match on
`label` or `properties?.name`. -/
def searchNode (st : GraphState) (query : List Char) : List GNode :=
  let lowerQuery := jsLower query
  st.originalNodes.filter (fun n =>
    jsIncludes (jsLower n.label) lowerQuery ||
      match propsName n with
      | some nm => jsIncludes (jsLower nm) lowerQuery
      | none => false)

/-! ## Journey page (`src/unnamed/part_000`)

Journey points of `journey.json`.  `lat`/`lng` are opaque payload (never used
arithmetically by the grouping code) and are modelled as `Int`. -/

structure JDoc where
  id : String
  title : String
  location : String
  lat : Int
  lng : Int
  country : String
  year : Int
  sortDate : String
  themes : List String
deriving Repr, DecidableEq

/-- A location group (part_000:64-71): the per-location aggregate with an
ordered document list and a theme table.  JS objects preserve string-key
insertion order, so both `locationGroups` and the `themes` table are modelled
as ordered association lists. -/
structure LocGroup where
  name : String
  lat : Int
  lng : Int
  country : String
  documents : List JDoc
  themes : List (String × List JDoc)
deriving Repr, DecidableEq

/-- `if (!themes[t]) themes[t] = []; themes[t].push(doc)`: push `d` onto the
entry for `t`, creating the key at the end on first use. -/
def addTheme (tbl : List (String × List JDoc)) (t : String) (d : JDoc) :
    List (String × List JDoc) :=
  match tbl with
  | [] => [(t, [d])]
  | (t', ds) :: rest =>
    if t' = t then (t', ds ++ [d]) :: rest else (t', ds) :: addTheme rest t d

/-- `doc.themes.forEach(theme => ...)` (part_000:76-81). -/
def addThemes (tbl : List (String × List JDoc)) (d : JDoc) :
    List (String × List JDoc) :=
  d.themes.foldl (fun tb t => addTheme tb t d) tbl

/-- The group created on first sight of a location (part_000:64-71). -/
def newGroup (d : JDoc) : LocGroup :=
  { name := d.location, lat := d.lat, lng := d.lng, country := d.country,
    documents := [d], themes := addThemes [] d }

/-- `locationGroups[loc].documents.push(doc)` plus the theme pushes, on the
existing group of `doc.location`. -/
def updGroup (g : LocGroup) (d : JDoc) : LocGroup :=
  { g with documents := g.documents ++ [d], themes := addThemes g.themes d }

/-- One iteration of the `journeyData.forEach(doc => ...)` loop
(part_000:61-82): append `d` to its location's group, creating the group at
the end of the table on first sight of the location. -/
def addDoc (gs : List LocGroup) (d : JDoc) : List LocGroup :=
  match gs with
  | [] => [newGroup d]
  | g :: rest =>
    if g.name = d.location then updGroup g d :: rest
    else g :: addDoc rest d

/-- The grouping loop over the whole document list. -/
def buildGroups (docs : List JDoc) : List LocGroup := docs.foldl addDoc []

/-- `location.documents.sort((a, b) => a.sortDate.localeCompare(b.sortDate))`
(part_000:85-87), with `localeCompare` modelled as lexicographic string
comparison (the `sortDate` values are ASCII `YYYY-MM-DD` keys). -/
def sortGroupDocs (g : LocGroup) : LocGroup :=
  { g with documents := g.documents.mergeSort (fun a b => a.sortDate ≤ b.sortDate) }

/-- `a.documents[0].sortDate`, the sort key of a group (part_000:90-92). -/
def groupKey (g : LocGroup) : String :=
  match g.documents with
  | d :: _ => d.sortDate
  | [] => ""

/-- The shared regrouping pipeline of `groupByLocation` (part_000:52-103) and
`filterByYearRange` (part_000:283-319): group by location, sort each group's
documents by `sortDate`, then sort the groups by the `sortDate` of their
first document. -/
def regroup (docs : List JDoc) : List LocGroup :=
  (((buildGroups docs).map sortGroupDocs).mergeSort
    (fun a b => groupKey a ≤ groupKey b))

/-- `groupByLocation` (part_000:52-103).  (The `minYear`/`maxYear` scan of
lines 56-59 only configures the timeline slider and is not part of the
grouping result.) -/
def groupByLocation (docs : List JDoc) : List LocGroup := regroup docs

/-- The year-range predicate of `filterByYearRange` (part_000:278-280). -/
def inYearRange (startYear endYear : Int) (d : JDoc) : Bool :=
  startYear ≤ d.year ∧ d.year ≤ endYear

/-- `filterByYearRange` (part_000:276-323): filter the journey documents to
the inclusive year window, then regroup exactly as `groupByLocation` does. -/
def filterByYearRange (docs : List JDoc) (startYear endYear : Int) : List LocGroup :=
  regroup (docs.filter (inYearRange startYear endYear))

/-- `location.themes[t]` with a missing key reading as the empty list. -/
def lookupTheme (tbl : List (String × List JDoc)) (t : String) : List JDoc :=
  match tbl.find? (fun p => p.1 = t) with
  | some p => p.2
  | none => []

/-- The specification-side value of a theme entry: the documents of location
`loc`, in input order, repeated once per occurrence of `t` in their theme
list. -/
def themeVal (docs : List JDoc) (loc : String) (t : String) : List JDoc :=
  (docs.filter (fun d => d.location = loc)).flatMap
    (fun d => (d.themes.filter (fun t' => t' = t)).map (fun _ => d))

/-! ## `RadialChart` (`src/radial.js`) -/

/-- A subcategory entry of `metadata.themeHierarchy[ck].themes`. -/
structure SubCat where
  name : String
deriving Repr, DecidableEq

/-- A category entry of `metadata.themeHierarchy`.  JS objects have unique
keys in insertion order, modelled as ordered association lists. -/
structure ThemeCat where
  name : String
  color : String
  themes : List (String × SubCat)
deriving Repr, DecidableEq

/-- A node of the tree built by `RadialChart.buildHierarchy`. -/
inductive RTree where
  | mk (name : List Char) (id : Option String) (value : Option Int)
      (documentCount : Option Int) (category : Option String)
      (subcategory : Option String) (color : Option String)
      (children : List RTree)
deriving Repr

def RTree.name : RTree → List Char
  | .mk nm _ _ _ _ _ _ _ => nm

def RTree.nodeId : RTree → Option String
  | .mk _ i _ _ _ _ _ _ => i

def RTree.value : RTree → Option Int
  | .mk _ _ v _ _ _ _ _ => v

def RTree.category : RTree → Option String
  | .mk _ _ _ _ c _ _ _ => c

def RTree.subcategory : RTree → Option String
  | .mk _ _ _ _ _ s _ _ => s

def RTree.children : RTree → List RTree
  | .mk _ _ _ _ _ _ _ ch => ch

/-- The height of an `RTree`: `0` for a childless node, one more than the
tallest child otherwise. -/
def RTree.height : RTree → Nat
  | .mk _ _ _ _ _ _ _ ch =>
    (ch.attach.map (fun c => RTree.height c.1 + 1)).foldr max 0
decreasing_by
  have h1 := List.sizeOf_lt_of_mem c.2
  simp at *
  omega

/-- `properties.category` of a node (radial.js accesses `n.properties.category`
without optional chaining; absent properties would throw in JS and never match
here). -/
def propsCategory (n : GNode) : Option String := n.properties.bind (·.category)

def propsSubcategory (n : GNode) : Option String := n.properties.bind (·.subcategory)

def propsDocumentCount (n : GNode) : Option Int := n.properties.bind (·.documentCount)

/-- The `connectedDocs` filter of `buildHierarchy` (radial.js:132-136). -/
def connectedDocEdges (nodes : List GNode) (edges : List GEdge) (themeId : String) :
    List GEdge :=
  edges.filter (fun e =>
    (e.source = themeId ∨ e.target = themeId) ∧
    (((nodes.find? (fun n => n.id = e.source)).map (·.type) = some "document") ∨
     ((nodes.find? (fun n => n.id = e.target)).map (·.type) = some "document")))

/-- A theme leaf pushed by `buildHierarchy` (radial.js:138-146).
`connectedDocs.length || 1` maps an empty count to `1`. -/
def themeLeaf (nodes : List GNode) (edges : List GEdge) (ck sk : String)
    (color : String) (t : GNode) : RTree :=
  let len := (connectedDocEdges nodes edges t.id).length
  .mk ((propsName t).getD []) (some t.id)
    (some (if len = 0 then 1 else (len : Int)))
    (some ((jsNum (propsDocumentCount t)).getD 0))
    (some ck) (some sk) (some color) []

/-- A subcategory node of the hierarchy (radial.js:115-121). -/
def subcatNode (ck sk : String) (color : String) (sub : SubCat)
    (leaves : List RTree) : RTree :=
  .mk sub.name.toList none none none (some ck) (some sk) (some color) leaves

/-- A category node of the hierarchy (radial.js:105-110). -/
def catNode (ck : String) (cat : ThemeCat) (subs : List RTree) : RTree :=
  .mk cat.name.toList none none none (some ck) none (some cat.color) subs

/-- The theme nodes selected for a `(category, subcategory)` pair
(radial.js:124-128). -/
def themeNodesFor (nodes : List GNode) (ck sk : String) : List GNode :=
  nodes.filter (fun n =>
    n.type = "theme" ∧ propsCategory n = some ck ∧ propsSubcategory n = some sk)

/-- The theme leaves pushed under the subcategory entry `p`
(radial.js:130-147). -/
def leavesFor (nodes : List GNode) (edges : List GEdge) (ck : String)
    (color : String) (p : String × SubCat) : List RTree :=
  (themeNodesFor nodes ck p.1).map (themeLeaf nodes edges ck p.1 color)

/-- The subcategory children of a category (radial.js:113-153): one node per
subcategory key that selects at least one theme. -/
def subsFor (nodes : List GNode) (edges : List GEdge) (ck : String)
    (cat : ThemeCat) : List RTree :=
  cat.themes.foldl (fun acc p =>
    if (leavesFor nodes edges ck cat.color p).length > 0 then
      acc ++ [subcatNode ck p.1 cat.color p.2 (leavesFor nodes edges ck cat.color p)]
    else acc) []

/-- `RadialChart.buildHierarchy` (radial.js:95-162). -/
def buildHierarchy (nodes : List GNode) (edges : List GEdge)
    (themeHierarchy : List (String × ThemeCat)) : RTree :=
  .mk "Gandhi's Themes".toList none none none none none none
    (themeHierarchy.foldl (fun acc p =>
      if (subsFor nodes edges p.1 p.2).length > 0 then
        acc ++ [catNode p.1 p.2 (subsFor nodes edges p.1 p.2)]
      else acc) [])

/-! ### `RadialChart.lightenColor` (radial.js:293-303) -/

/-- The clamp `(X < 255 ? X < 1 ? 0 : X : 255)` applied to each channel. -/
def clampChannel (x : ℤ) : ℕ :=
  if x < 255 then (if x < 1 then 0 else x.toNat) else 255

/-- A lowercase hexadecimal digit, as produced by JS `Number.toString(16)`. -/
def hexChar (d : ℕ) : Char := "0123456789abcdef".toList.getD d '0'

/-- JS `Number.toString(16)` on a natural number: minimal-length lowercase
hexadecimal digits. -/
def hexDigits (n : ℕ) : List Char :=
  if n < 16 then [hexChar n] else hexDigits (n / 16) ++ [hexChar (n % 16)]
decreasing_by
  simp at *
  omega

/-- `RadialChart.lightenColor` (radial.js:293-303).  `num` is the value of
`parseInt(color.replace('#',''), 16)`; the result is the returned string as a
character list.  `2.55 * percent` is computed exactly. -/
def lightenColor (num : ℕ) (percent : ℚ) : List Char :=
  let amt : ℤ := jsRound ((255/100 : ℚ) * percent)
  let R : ℤ := (num >>> 16 : ℕ) + amt
  let G : ℤ := ((num >>> 8) % 256 : ℕ) + amt
  let B : ℤ := (num % 256 : ℕ) + amt
  let v : ℕ := 0x1000000 + clampChannel R * 0x10000 + clampChannel G * 0x100 + clampChannel B
  '#' :: (hexDigits v).drop 1

/-! ## `init` of `src/main.js` (main.js:22-79)

The view state touched by `init`, `hideLoading` and `showError`: which
initialization steps have run, and the loading screen's text and spinner. -/

structure AppView where
  rendered : Bool
  statsUpdated : Bool
  listenersSetup : Bool
  loadingHidden : Bool
  loadingText : String
  spinnerShown : Bool
deriving Repr, DecidableEq

/-- The page before `init` runs: nothing initialized, spinner visible. -/
def initialView (loadingText : String) : AppView :=
  { rendered := false, statsUpdated := false, listenersSetup := false,
    loadingHidden := false, loadingText := loadingText, spinnerShown := true }

/-- `showError` (main.js:75-79): replace the loading text, hide the spinner. -/
def showError (v : AppView) (message : String) : AppView :=
  { v with loadingText := message, spinnerShown := false }

/-- `RadialChart.loadData` (radial.js:66-93): `Promise.all` of the three
fetches; any failure rejects the whole load and is rethrown. -/
def radialLoadData (rn : Except String (List GNode)) (re : Except String (List GEdge))
    (rm : Except String (List (String × ThemeCat))) :
    Except String (List GNode × List GEdge × List (String × ThemeCat)) := do
  let n ← rn
  let e ← re
  let m ← rm
  pure (n, e, m)

/-- `init` (main.js:22-60): on a successful load it renders, updates stats,
wires listeners and hides the loading screen; if the load throws it falls
into the `catch` and only shows the generic error. -/
def initApp (v : AppView) (rn : Except String (List GNode))
    (re : Except String (List GEdge))
    (rm : Except String (List (String × ThemeCat))) : AppView :=
  match radialLoadData rn re rm with
  | .error _ => showError v "Failed to load data. Please refresh the page."
  | .ok _ =>
    { v with rendered := true, statsUpdated := true, listenersSetup := true,
             loadingHidden := true }

/-! ## Tree explorer (`src/unnamed/part_001`)

The pre-built tree of `radial_tree.json`: a node name, a `doc` payload flag
(document leaves carry a `doc` object), and a child list. -/

inductive TData where
  | mk (name : String) (doc : Bool) (children : List TData)

def TData.kids : TData → List TData
  | .mk _ _ cs => cs

/-- A `d3.hierarchy` node as mutated by the page: `children` is the visible
child list (or `null`) and `_children` is the parked, collapsed child list
(or `null`). -/
inductive HNode where
  | mk (name : String) (doc : Bool) (children : Option (List HNode))
      (_children : Option (List HNode))

def HNode.nameOf : HNode → String
  | .mk nm _ _ _ => nm

def HNode.docOf : HNode → Bool
  | .mk _ dc _ _ => dc

def HNode.childrenOf : HNode → Option (List HNode)
  | .mk _ _ ch _ => ch

def HNode.parkedOf : HNode → Option (List HNode)
  | .mk _ _ _ pk => pk

/-- `d3.hierarchy(treeData)`: `children` is set exactly when the data's child
array is non-empty, `_children` starts unset. -/
def hierarchyOf : TData → HNode
  | .mk nm dc cs =>
    .mk nm dc
      (if cs.isEmpty then none
       else some (cs.attach.map (fun c => hierarchyOf c.1)))
      none
decreasing_by
  have h1 := List.sizeOf_lt_of_mem c.2
  simp at *
  omega

/-- The `click` handler (part_001:379-403) restricted to its effect on the
tree state: document leaves only open the viewer; otherwise `children` is
parked into `_children` (collapse) or restored from it (expand). -/
def clickNode (n : HNode) : HNode :=
  match n with
  | .mk nm dc ch pk =>
    if dc then .mk nm dc ch pk
    else
      match ch, pk with
      | some l, _ => .mk nm dc none (some l)
      | none, some l => .mk nm dc (some l) none
      | none, none => .mk nm dc none none

/-- A single user click somewhere in the rendered tree: either on this node,
or on a node inside the *visible* (`children`) subtree — parked subtrees are
not rendered and cannot be clicked. -/
inductive ClickStep : HNode → HNode → Prop where
  | here (n : HNode) : ClickStep n (clickNode n)
  | child (nm : String) (dc : Bool) (pk : Option (List HNode))
      (l₁ l₂ : List HNode) (c c' : HNode) :
      ClickStep c c' →
      ClickStep (.mk nm dc (some (l₁ ++ c :: l₂)) pk)
        (.mk nm dc (some (l₁ ++ c' :: l₂)) pk)

/-- The effect of the `resetTree`/`createVisualization` collapse loop
(`d._children = d.children; d.children = null`, part_001:140-145 and 220-225)
on one visible descendant and, recursively, on its visible subtree.  A node
whose `children` is `null` gets `_children := null`, dropping any previously
parked subtree. -/
inductive CollapseDesc : HNode → HNode → Prop where
  | noKids (nm : String) (dc : Bool) (pk : Option (List HNode)) :
      CollapseDesc (.mk nm dc none pk) (.mk nm dc none none)
  | withKids (nm : String) (dc : Bool) (pk : Option (List HNode))
      (l l' : List HNode) :
      List.Forall₂ CollapseDesc l l' →
      CollapseDesc (.mk nm dc (some l) pk) (.mk nm dc none (some l'))

/-- The full collapse loop applied from the root: the root itself (depth 0)
is skipped, every visible descendant is collapsed. -/
inductive ResetStep : HNode → HNode → Prop where
  | noKids (nm : String) (dc : Bool) (pk : Option (List HNode)) :
      ResetStep (.mk nm dc none pk) (.mk nm dc none pk)
  | withKids (nm : String) (dc : Bool) (pk : Option (List HNode))
      (l l' : List HNode) :
      List.Forall₂ CollapseDesc l l' →
      ResetStep (.mk nm dc (some l) pk) (.mk nm dc (some l') pk)

/-- The structural invariant: on every node, at most one of `children` and
`_children` is non-null. -/
inductive TreeWF : HNode → Prop where
  | mk (nm : String) (dc : Bool) (ch pk : Option (List HNode)) :
      ¬(ch.isSome ∧ pk.isSome) →
      (∀ c ∈ ch.getD [], TreeWF c) →
      (∀ c ∈ pk.getD [], TreeWF c) →
      TreeWF (.mk nm dc ch pk)

mutual

/-- Total number of nodes owned by a node, through both the visible and the
parked lists. -/
def countNodes : HNode → Nat
  | .mk _ _ ch pk => 1 + countOpt ch + countOpt pk

def countOpt : Option (List HNode) → Nat
  | none => 0
  | some l => countList l

def countList : List HNode → Nat
  | [] => 0
  | c :: cs => countNodes c + countList cs

end

/-- A state reachable from `s` by any sequence of clicks and resets. -/
def TreeReaches (s s' : HNode) : Prop :=
  Relation.ReflTransGen (fun a b => ClickStep a b ∨ ResetStep a b) s s'

/-! ## Sample data used by witnesses -/

/-- A sample document node. -/
def sampleDoc : GNode :=
  { id := "d1", type := "document", label := "Letter".toList,
    properties := some { GProps.empty with year := some 1900 } }

/-- A sample theme node. -/
def sampleTheme : GNode :=
  { id := "t1", type := "theme", label := "Satyagraha".toList,
    properties := some GProps.empty }

/-- An edge from the sample document to the sample theme. -/
def sampleEdge : GEdge := { id := "e1", source := "d1", target := "t1" }

/-- A graph state holding the sample nodes and edge. -/
def sampleState : GraphState :=
  { nodes := [], edges := [], originalNodes := [sampleDoc, sampleTheme],
    originalEdges := [sampleEdge],
    filters := { types := ["theme", "person", "event", "period"], year := none } }

/-! ## C1: `applyFilters` never produces an orphaned edge -/

/-- C1.  For every graph state and every filter combination, each edge kept by
`applyFilters` has both of its endpoint ids among the ids of the filtered
node list: an edge with a removed endpoint is dropped. -/
theorem C1_applyFilters_no_orphan_edge (st : GraphState) (f : GFilters) (e : GEdge)
    (he : e ∈ (applyFilters st f).edges) :
    (∃ n ∈ (applyFilters st f).nodes, n.id = e.source) ∧
    (∃ n ∈ (applyFilters st f).nodes, n.id = e.target) := by
  simp only [applyFilters, List.mem_filter, Bool.and_eq_true] at he
  obtain ⟨-, hsrc, htgt⟩ := he
  rw [List.contains_iff_exists_mem_beq] at hsrc htgt
  simp only [List.mem_map, beq_iff_eq] at hsrc htgt
  obtain ⟨x, ⟨n, hn, hx⟩, hxe⟩ := hsrc
  obtain ⟨y, ⟨m, hm, hy⟩, hye⟩ := htgt
  constructor
  · exact ⟨n, by simpa [applyFilters] using hn, by rw [hx, hxe]⟩
  · exact ⟨m, by simpa [applyFilters] using hm, by rw [hy, hye]⟩

/-- Witness for C1: in the sample state with all type filters on, the sample
edge survives and both endpoints are present. -/
theorem C1_witness :
    sampleEdge ∈ (applyFilters sampleState sampleState.filters).edges ∧
    ((∃ n ∈ (applyFilters sampleState sampleState.filters).nodes,
        n.id = sampleEdge.source) ∧
     (∃ n ∈ (applyFilters sampleState sampleState.filters).nodes,
        n.id = sampleEdge.target)) :=
  ⟨by decide,
   C1_applyFilters_no_orphan_edge sampleState sampleState.filters sampleEdge
     (by decide)⟩

/-! ## C7: a failed load shows only the generic error -/

/-- C7.  If fetching any of the three JSON files fails, `init` performs none
of the subsequent steps (render, stats, listeners, hiding the loading screen)
and only replaces the loading text with the generic message, hiding the
spinner. -/
theorem C7_init_load_failure (txt : String)
    (rn : Except String (List GNode)) (re : Except String (List GEdge))
    (rm : Except String (List (String × ThemeCat)))
    (hfail : (∃ m, rn = .error m) ∨ (∃ m, re = .error m) ∨ (∃ m, rm = .error m)) :
    initApp (initialView txt) rn re rm =
      { rendered := false, statsUpdated := false, listenersSetup := false,
        loadingHidden := false,
        loadingText := "Failed to load data. Please refresh the page.",
        spinnerShown := false } := by
  cases rn with
  | error m => simp [initApp, radialLoadData, showError, initialView, Bind.bind, Except.bind, Functor.map, Except.map]
  | ok n =>
    cases re with
    | error m => simp [initApp, radialLoadData, showError, initialView, Bind.bind, Except.bind, Functor.map, Except.map]
    | ok e =>
      cases rm with
      | error m => simp [initApp, radialLoadData, showError, initialView, Bind.bind, Except.bind, Functor.map, Except.map]
      | ok m =>
        rcases hfail with ⟨m', h⟩ | ⟨m', h⟩ | ⟨m', h⟩ <;> exact absurd h (by simp)

/-- Witness for C7: a failing nodes fetch. -/
theorem C7_witness :
    initApp (initialView "Loading...") (.error "HTTP 404") (.ok []) (.ok []) =
      { rendered := false, statsUpdated := false, listenersSetup := false,
        loadingHidden := false,
        loadingText := "Failed to load data. Please refresh the page.",
        spinnerShown := false } :=
  C7_init_load_failure "Loading..." (.error "HTTP 404") (.ok []) (.ok [])
    (Or.inl ⟨"HTTP 404", rfl⟩)

/-! ## C10: `lightenColor` clamps channels and returns a valid color -/

theorem hexDigits_of_lt (n : ℕ) (h : n < 16) : hexDigits n = [hexChar n] := by
  rw [hexDigits]
  simp [h]

theorem hexDigits_mul_add (a d : ℕ) (ha : 1 ≤ a) (hd : d < 16) :
    hexDigits (16 * a + d) = hexDigits a ++ [hexChar d] := by
  rw [hexDigits]
  have h16 : ¬(16 * a + d < 16) := by omega
  have hdiv : (16 * a + d) / 16 = a := by omega
  have hmod : (16 * a + d) % 16 = d := by omega
  simp [h16, hdiv, hmod]

theorem clampChannel_le (x : ℤ) : clampChannel x ≤ 255 := by
  unfold clampChannel
  split
  · split
    · omega
    · rename_i h1 h2
      omega
  · omega

theorem hexDigits_color (r g b : ℕ) (hr : r ≤ 255) (hg : g ≤ 255) (hb : b ≤ 255) :
    hexDigits (0x1000000 + r * 0x10000 + g * 0x100 + b) =
      ['1', hexChar (r / 16), hexChar (r % 16), hexChar (g / 16),
       hexChar (g % 16), hexChar (b / 16), hexChar (b % 16)] := by
  have e1 : 0x1000000 + r * 0x10000 + g * 0x100 + b =
      16 * (16 * (16 * (16 * (16 * (16 * 1 + r / 16) + r % 16) + g / 16) + g % 16)
        + b / 16) + b % 16 := by omega
  rw [e1]
  rw [hexDigits_mul_add _ _ (by omega) (by omega)]
  rw [hexDigits_mul_add _ _ (by omega) (by omega)]
  rw [hexDigits_mul_add _ _ (by omega) (by omega)]
  rw [hexDigits_mul_add _ _ (by omega) (by omega)]
  rw [hexDigits_mul_add _ _ (by omega) (by omega)]
  rw [hexDigits_mul_add _ _ (by omega) (by omega)]
  rw [hexDigits_of_lt _ (by omega)]
  simp [hexChar]

/-- The clamped result channel: `base + Math.round(2.55 * percent)`, clamped
as the source clamps it. -/
def lightenChannel (percent : ℚ) (base : ℕ) : ℕ :=
  clampChannel ((base : ℤ) + jsRound ((255/100 : ℚ) * percent))

/-- C10.  For a well-formed `'#RRGGBB'` input (`num < 16^6`, with channels
`num >>> 16`, `(num >>> 8) % 256`, `num % 256`) and any percent,
`lightenColor` adds `round(2.55 · percent)` to each channel, clamps the
result into `[0, 255]` (a value below 1 becomes 0, a value at or above 255
becomes 255), and reassembles a 7-character `'#RRGGBB'` string whose three
hex-digit pairs are exactly the three clamped channels — so no channel ever
overflows into a neighbouring one.  -/
theorem C10_lightenColor_clamps (num : ℕ) (percent : ℚ) (hnum : num < 16 ^ 6) :
    lightenColor num percent =
      ['#', hexChar (lightenChannel percent (num >>> 16) / 16),
       hexChar (lightenChannel percent (num >>> 16) % 16),
       hexChar (lightenChannel percent ((num >>> 8) % 256) / 16),
       hexChar (lightenChannel percent ((num >>> 8) % 256) % 16),
       hexChar (lightenChannel percent (num % 256) / 16),
       hexChar (lightenChannel percent (num % 256) % 16)] ∧
    lightenChannel percent (num >>> 16) ≤ 255 ∧
    lightenChannel percent ((num >>> 8) % 256) ≤ 255 ∧
    lightenChannel percent (num % 256) ≤ 255 ∧
    (∀ x : ℤ, x < 1 → clampChannel x = 0) ∧
    (∀ x : ℤ, 255 ≤ x → clampChannel x = 255) ∧
    (∀ x : ℤ, 1 ≤ x → x < 255 → (clampChannel x : ℤ) = x) ∧
    (∀ d : ℕ, d < 16 → hexChar d ∈ "0123456789abcdef".toList) := by
  refine ⟨?_, clampChannel_le _, clampChannel_le _, clampChannel_le _, ?_, ?_, ?_, ?_⟩
  · show lightenColor num percent = _
    simp only [lightenColor, lightenChannel]
    rw [hexDigits_color _ _ _ (clampChannel_le _) (clampChannel_le _) (clampChannel_le _)]
    rfl
  · intro x hx
    unfold clampChannel
    have : x < 255 := by omega
    simp [this, hx]
  · intro x hx
    unfold clampChannel
    have : ¬ (x < 255) := by omega
    simp [this]
  · intro x h1 h2
    unfold clampChannel
    have hn1 : ¬ (x < 1) := by omega
    simp [h2, hn1]
    omega
  · intro d hd
    interval_cases d <;> decide

/-- Witness for C10: lighten `#123456` by 20 percent. -/
theorem C10_witness :
    (0x123456 : ℕ) < 16 ^ 6 ∧
    (lightenColor 0x123456 20 =
       ['#', hexChar (lightenChannel 20 ((0x123456 : ℕ) >>> 16) / 16),
        hexChar (lightenChannel 20 ((0x123456 : ℕ) >>> 16) % 16),
        hexChar (lightenChannel 20 (((0x123456 : ℕ) >>> 8) % 256) / 16),
        hexChar (lightenChannel 20 (((0x123456 : ℕ) >>> 8) % 256) % 16),
        hexChar (lightenChannel 20 ((0x123456 : ℕ) % 256) / 16),
        hexChar (lightenChannel 20 ((0x123456 : ℕ) % 256) % 16)] ∧
     lightenChannel 20 ((0x123456 : ℕ) >>> 16) ≤ 255 ∧
     lightenChannel 20 (((0x123456 : ℕ) >>> 8) % 256) ≤ 255 ∧
     lightenChannel 20 ((0x123456 : ℕ) % 256) ≤ 255 ∧
     (∀ x : ℤ, x < 1 → clampChannel x = 0) ∧
     (∀ x : ℤ, 255 ≤ x → clampChannel x = 255) ∧
     (∀ x : ℤ, 1 ≤ x → x < 255 → (clampChannel x : ℤ) = x) ∧
     (∀ d : ℕ, d < 16 → hexChar d ∈ "0123456789abcdef".toList)) :=
  ⟨by norm_num, C10_lightenColor_clamps 0x123456 20 (by norm_num)⟩

/-! ## C6: timeline x is an affine map of the year, y is a type lane -/

theorem getTimelineX_formula (w : ℚ) (n : GNode) :
    getTimelineX w n = 100 + ((timelineYear n - 1884) / 45) * (w - 2 * 100) := by
  simp only [getTimelineX]
  norm_num

/-- C6.  With `margin = 100`: `getTimelineX` equals
`margin + ((year - 1884) / 45) · (width - 2·margin)` where `year` is the
node's relevant timeline year; over years in `[1884, 1929]` it is strictly
increasing in the year and lands in `[margin, width - margin]`.
`getTimelineY` depends only on the node's type, with one fixed lane for each
of the five types. -/
theorem C6_timeline_coordinates (w h : ℚ) (hw : 200 < w) :
    (∀ n : GNode, getTimelineX w n = 100 + ((timelineYear n - 1884) / 45) * (w - 2 * 100)) ∧
    (∀ n₁ n₂ : GNode, timelineYear n₁ < timelineYear n₂ →
      getTimelineX w n₁ < getTimelineX w n₂) ∧
    (∀ n : GNode, 1884 ≤ timelineYear n → timelineYear n ≤ 1929 →
      100 ≤ getTimelineX w n ∧ getTimelineX w n ≤ w - 100) ∧
    (∀ n₁ n₂ : GNode, n₁.type = n₂.type → getTimelineY h n₁ = getTimelineY h n₂) ∧
    (∀ n : GNode,
      (n.type = "event" → getTimelineY h n = h / 2 - (h / 6) * (3 / 2)) ∧
      (n.type = "person" → getTimelineY h n = h / 2 - (h / 6) * (1 / 2)) ∧
      (n.type = "document" → getTimelineY h n = h / 2) ∧
      (n.type = "theme" → getTimelineY h n = h / 2 + (h / 6) * (1 / 2)) ∧
      (n.type = "period" → getTimelineY h n = h / 2 + (h / 6) * (3 / 2))) := by
  refine ⟨getTimelineX_formula w, ?_, ?_, ?_, ?_⟩
  · intro n₁ n₂ hlt
    rw [getTimelineX_formula, getTimelineX_formula]
    have hpos : (0 : ℚ) < w - 2 * 100 := by linarith
    have h45 : ((timelineYear n₁ - 1884) / 45 : ℚ) < (timelineYear n₂ - 1884) / 45 := by
      have := hlt
      linarith
    have h2 := mul_lt_mul_of_pos_right h45 hpos
    linarith
  · intro n hlo hhi
    rw [getTimelineX_formula]
    have hpos : (0 : ℚ) ≤ w - 2 * 100 := by linarith
    have hq0 : (0 : ℚ) ≤ (timelineYear n - 1884) / 45 := by linarith
    have hq1 : ((timelineYear n - 1884) / 45 : ℚ) ≤ 1 := by linarith
    have hlow := mul_nonneg hq0 hpos
    have hupp := mul_le_mul_of_nonneg_right hq1 hpos
    constructor
    · linarith
    · linarith
  · intro n₁ n₂ ht
    simp only [getTimelineY, ht]
  · intro n
    refine ⟨?_, ?_, ?_, ?_, ?_⟩ <;> intro ht <;> simp [getTimelineY, ht]

/-- Witness for C6 at the default 800×600 canvas. -/
theorem C6_witness :
    (200 : ℚ) < 800 ∧
    ((∀ n : GNode,
        getTimelineX 800 n = 100 + ((timelineYear n - 1884) / 45) * (800 - 2 * 100)) ∧
     (∀ n₁ n₂ : GNode, timelineYear n₁ < timelineYear n₂ →
        getTimelineX 800 n₁ < getTimelineX 800 n₂) ∧
     (∀ n : GNode, 1884 ≤ timelineYear n → timelineYear n ≤ 1929 →
        100 ≤ getTimelineX 800 n ∧ getTimelineX 800 n ≤ 800 - 100) ∧
     (∀ n₁ n₂ : GNode, n₁.type = n₂.type →
        getTimelineY 600 n₁ = getTimelineY 600 n₂) ∧
     (∀ n : GNode,
        (n.type = "event" → getTimelineY 600 n = 600 / 2 - (600 / 6) * (3 / 2)) ∧
        (n.type = "person" → getTimelineY 600 n = 600 / 2 - (600 / 6) * (1 / 2)) ∧
        (n.type = "document" → getTimelineY 600 n = 600 / 2) ∧
        (n.type = "theme" → getTimelineY 600 n = 600 / 2 + (600 / 6) * (1 / 2)) ∧
        (n.type = "period" → getTimelineY 600 n = 600 / 2 + (600 / 6) * (3 / 2)))) :=
  ⟨by norm_num, C6_timeline_coordinates 800 600 (by norm_num)⟩

/-! ## C9: `searchNode` is case-insensitive -/

theorem ofNat_toNat_small (n : Nat) (h : n < 0xd800) : (Char.ofNat n).toNat = n := by
  have hv : n.isValidChar := Or.inl h
  rw [Char.ofNat]
  simp only [hv, dif_pos]
  show (Char.ofNatAux n hv).toNat = n
  simp [Char.ofNatAux, Char.toNat, UInt32.toNat, BitVec.toNat_ofNatLt]

theorem charToLower_idem (c : Char) : Char.toLower (Char.toLower c) = Char.toLower c := by
  simp only [Char.toLower]
  by_cases h : c.toNat ≥ 65 ∧ c.toNat ≤ 90
  · rw [if_pos h]
    have hval : (Char.ofNat (c.toNat + 32)).toNat = c.toNat + 32 :=
      ofNat_toNat_small _ (by omega)
    rw [if_neg]
    rw [hval]
    omega
  · rw [if_neg h, if_neg h]

theorem jsLower_idem (s : List Char) : jsLower (jsLower s) = jsLower s := by
  simp only [jsLower, List.map_map]
  apply List.map_congr_left
  intro c _
  exact charToLower_idem c

theorem jsStartsWith_iff (n h : List Char) :
    jsStartsWith h n = true ↔ ∃ t, h = n ++ t := by
  induction n generalizing h with
  | nil => simp [jsStartsWith]
  | cons d ds ih =>
    cases h with
    | nil =>
      simp [jsStartsWith]
    | cons c t =>
      simp only [jsStartsWith, Bool.and_eq_true, decide_eq_true_eq, ih,
        List.cons_append, List.cons.injEq]
      constructor
      · rintro ⟨rfl, u, rfl⟩
        exact ⟨u, rfl, rfl⟩
      · rintro ⟨u, rfl, rfl⟩
        exact ⟨rfl, u, rfl⟩

theorem jsIncludes_iff (h n : List Char) :
    jsIncludes h n = true ↔ ∃ a b, h = a ++ (n ++ b) := by
  induction h with
  | nil =>
    rw [jsIncludes]
    cases n with
    | nil => simp [jsStartsWith]
    | cons d ds => simp [jsStartsWith]
  | cons c t ih =>
    rw [jsIncludes]
    simp only [Bool.or_eq_true, jsStartsWith_iff, ih]
    constructor
    · rintro (⟨u, hu⟩ | ⟨a, b, rfl⟩)
      · exact ⟨[], u, by simp [hu]⟩
      · exact ⟨c :: a, b, by simp⟩
    · rintro ⟨a, b, hab⟩
      cases a with
      | nil =>
        left
        exact ⟨b, by simpa using hab⟩
      | cons x xs =>
        right
        simp only [List.cons_append, List.cons.injEq] at hab
        exact ⟨xs, b, hab.2⟩

theorem jsIncludes_lower_iff (s q : List Char) :
    jsIncludes (jsLower s) (jsLower q) = true ↔
      ∃ a m b, s = a ++ m ++ b ∧ jsLower m = jsLower q := by
  rw [jsIncludes_iff]
  constructor
  · rintro ⟨A, B, hAB⟩
    rw [jsLower, List.map_eq_append_iff] at hAB
    obtain ⟨a, rest, rfl, hA, hrest⟩ := hAB
    rw [List.map_eq_append_iff] at hrest
    obtain ⟨m, b, rfl, hm, hb⟩ := hrest
    exact ⟨a, m, b, by simp, by rw [jsLower, hm]⟩
  · rintro ⟨a, m, b, rfl, hm⟩
    refine ⟨jsLower a, jsLower b, ?_⟩
    simp only [jsLower] at hm ⊢
    simp [hm]

/-- C9.  `searchNode` returns exactly the original nodes whose label — or
`properties.name`, when present — contains the query up to case; and the
result is unchanged if the query is replaced by its lowercase form. -/
theorem C9_searchNode_case_insensitive :
    (∀ (st : GraphState) (q : List Char) (n : GNode),
      n ∈ searchNode st q ↔
        n ∈ st.originalNodes ∧
          ((∃ a m b, n.label = a ++ m ++ b ∧ jsLower m = jsLower q) ∨
           (∃ nm, propsName n = some nm ∧
              ∃ a m b, nm = a ++ m ++ b ∧ jsLower m = jsLower q))) ∧
    (∀ (st : GraphState) (q : List Char),
      searchNode st q = searchNode st (jsLower q)) := by
  constructor
  · intro st q n
    simp only [searchNode, List.mem_filter, Bool.or_eq_true]
    apply and_congr_right
    intro _
    apply or_congr
    · exact jsIncludes_lower_iff n.label q
    · cases hnm : propsName n with
      | none => simp
      | some nm =>
        simp only [hnm, Option.some.injEq]
        rw [jsIncludes_lower_iff nm q]
        constructor
        · intro h
          exact ⟨nm, rfl, h⟩
        · rintro ⟨nm', hnm', h⟩
          rwa [hnm']
  · intro st q
    simp only [searchNode, jsLower_idem]

/-- Witness for C9 on the sample state with an uppercase query. -/
theorem C9_witness :
    (sampleTheme ∈ searchNode sampleState "SATYA".toList ↔
      sampleTheme ∈ sampleState.originalNodes ∧
        ((∃ a m b, sampleTheme.label = a ++ m ++ b ∧
            jsLower m = jsLower "SATYA".toList) ∨
         (∃ nm, propsName sampleTheme = some nm ∧
            ∃ a m b, nm = a ++ m ++ b ∧ jsLower m = jsLower "SATYA".toList))) ∧
    searchNode sampleState "SATYA".toList =
      searchNode sampleState (jsLower "SATYA".toList) :=
  ⟨C9_searchNode_case_insensitive.1 sampleState "SATYA".toList sampleTheme,
   C9_searchNode_case_insensitive.2 sampleState "SATYA".toList⟩

/-! ## C2: `avgYear` after `loadData` -/

/-- Specification-side view of the accumulation: the document years credited
to node `n`, listed per edge — the year of the resolved other endpoint when
it is a document with a truthy year and `n`'s id sits on the opposite end. -/
def connectedDocYears (nodes : List GNode) (edges : List GEdge) (n : GNode) :
    List Int :=
  edges.flatMap (fun e =>
    (if e.target = n.id then
       match nodes.find? (fun m => m.id = e.source) with
       | some sn =>
         if sn.type = "document" then
           match jsNum (propsYear sn) with
           | some y => [y]
           | none => []
         else []
       | none => []
     else []) ++
    (if e.source = n.id then
       match nodes.find? (fun m => m.id = e.target) with
       | some tn =>
         if tn.type = "document" then
           match jsNum (propsYear tn) with
           | some y => [y]
           | none => []
         else []
       | none => []
     else []))

theorem find?_id_eq_self (nodes : List GNode) (n : GNode) (hn : n ∈ nodes)
    (hnd : (nodes.map (·.id)).Nodup) :
    nodes.find? (fun m => m.id = n.id) = some n := by
  induction nodes with
  | nil => cases hn
  | cons h t ih =>
    simp only [List.map_cons, List.nodup_cons, List.mem_map] at hnd
    rcases List.mem_cons.mp hn with rfl | hmem
    · simp [List.find?]
    · rw [List.find?]
      have hpa : (decide (h.id = n.id)) = false := by
        simp only [decide_eq_false_iff_not]
        exact fun he => hnd.1 ⟨n, hmem, he.symm⟩
      simp only [hpa]
      exact ih hmem hnd.2

theorem find?_id_mem_eq (nodes : List GNode) (x : String) (m : GNode)
    (h : nodes.find? (fun k => k.id = x) = some m) : m.id = x := by
  have := List.find?_some h
  simpa using this

theorem credits_filter_eq (nodes : List GNode) (edges : List GEdge) (n : GNode)
    (hn : n ∈ nodes) (hnd : (nodes.map (·.id)).Nodup)
    (hty : n.type = "theme" ∨ n.type = "person") :
    ((allCredits nodes edges).filter (fun c => c.1 = n.id)).map (·.2)
      = connectedDocYears nodes edges n := by
  unfold allCredits connectedDocYears
  induction edges with
  | nil => rfl
  | cons e es ih =>
    simp only [List.flatMap_cons, List.filter_append, List.map_append]
    rw [ih]
    congr 1
    simp only [edgeCredits]
    rw [List.filter_append, List.map_append]
    congr 1
    · -- first credit: source document credited to the target endpoint
      cases hfs : nodes.find? (fun m => decide (m.id = e.source)) with
      | none =>
        cases hft : nodes.find? (fun m => decide (m.id = e.target)) with
        | none => simp
        | some tn => simp
      | some sn =>
        cases hft : nodes.find? (fun m => decide (m.id = e.target)) with
        | none =>
          have hne : e.target ≠ n.id := by
            intro he
            rw [he, find?_id_eq_self nodes n hn hnd] at hft
            cases hft
          simp [hne]
        | some tn =>
          have htn : tn.id = e.target := find?_id_mem_eq nodes e.target tn hft
          by_cases ht : e.target = n.id
          · have : tn = n := by
              rw [ht, find?_id_eq_self nodes n hn hnd] at hft
              cases hft
              rfl
            subst this
            by_cases hdoc : sn.type = "document"
            · cases hy : jsNum (propsYear sn) with
              | none => simp [hdoc, hy, ht]
              | some y => simp [hdoc, hy, hty, ht]
            · simp [hdoc, ht]
          · by_cases hdoc : sn.type = "document"
            · cases hy : jsNum (propsYear sn) with
              | none => simp [hdoc, hy, ht]
              | some y =>
                by_cases htp : tn.type = "theme" ∨ tn.type = "person"
                · have hfalse : ¬ (tn.id = n.id) := fun he => ht (htn ▸ he)
                  simp [hdoc, hy, htp, ht, hfalse]
                · simp [hdoc, hy, htp, ht]
            · simp [hdoc, ht]
    · -- second credit: target document credited to the source endpoint
      cases hft : nodes.find? (fun m => decide (m.id = e.target)) with
      | none =>
        cases hfs : nodes.find? (fun m => decide (m.id = e.source)) with
        | none => simp
        | some sn => simp
      | some tn =>
        cases hfs : nodes.find? (fun m => decide (m.id = e.source)) with
        | none =>
          have hne : e.source ≠ n.id := by
            intro he
            rw [he, find?_id_eq_self nodes n hn hnd] at hfs
            cases hfs
          simp [hne]
        | some sn =>
          have hsn : sn.id = e.source := find?_id_mem_eq nodes e.source sn hfs
          by_cases hs : e.source = n.id
          · have : sn = n := by
              rw [hs, find?_id_eq_self nodes n hn hnd] at hfs
              cases hfs
              rfl
            subst this
            by_cases hdoc : tn.type = "document"
            · cases hy : jsNum (propsYear tn) with
              | none => simp [hdoc, hy, hs]
              | some y => simp [hdoc, hy, hty, hs]
            · simp [hdoc, hs]
          · by_cases hdoc : tn.type = "document"
            · cases hy : jsNum (propsYear tn) with
              | none => simp [hdoc, hy, hs]
              | some y =>
                by_cases htp : sn.type = "theme" ∨ sn.type = "person"
                · have hfalse : ¬ (sn.id = n.id) := fun he => hs (hsn ▸ he)
                  simp [hdoc, hy, htp, hs, hfalse]
                · simp [hdoc, hy, htp, hs]
            · simp [hdoc, hs]

/-- Counterexample to C2 as stated: after `loadData`, a document node (here
the sample document, loaded with no edges) carries no `properties.avgYear`
at all, so not *every* graph node carries the denormalized average. -/
theorem C2_counterexample :
    ¬ ∀ n ∈ (loadData sampleState [sampleDoc] []).nodes,
        (propsAvgYear n).isSome = true := by
  decide

/-- C2 (amended).  After `loadData`, exactly the theme and person nodes with
at least one edge-connected document carrying a (truthy) year receive
`properties.avgYear = Math.round` of the mean of those per-edge document
years; all other nodes are unchanged (documents, events and periods never
receive an `avgYear`).  Stated for node lists with distinct ids, as the
accumulation is keyed by id. -/
theorem C2_loadData_avgYear (nodes : List GNode) (edges : List GEdge)
    (hnd : (nodes.map (·.id)).Nodup) :
    (∀ st : GraphState, (loadData st nodes edges).nodes = calculateAverageYears nodes edges) ∧
    calculateAverageYears nodes edges = nodes.map (fun n =>
      if (n.type = "theme" ∨ n.type = "person") ∧ connectedDocYears nodes edges n ≠ [] then
        setAvgYear n (jsRound (((connectedDocYears nodes edges n).sum : ℚ) /
          ((connectedDocYears nodes edges n).length : ℚ)))
      else n) := by
  refine ⟨fun st => rfl, ?_⟩
  unfold calculateAverageYears
  apply List.map_congr_left
  intro n hn
  by_cases hty : n.type = "theme" ∨ n.type = "person"
  · have hc := credits_filter_eq nodes edges n hn hnd hty
    have hsum : yearSum nodes edges n.id = (connectedDocYears nodes edges n).sum := by
      unfold yearSum
      rw [hc]
    have hlen : yearCount nodes edges n.id = (connectedDocYears nodes edges n).length := by
      have := congrArg List.length hc
      simpa [yearCount] using this
    rw [hsum, hlen]
    by_cases hne : connectedDocYears nodes edges n = []
    · simp [hne, hty]
    · have hpos : 0 < (connectedDocYears nodes edges n).length :=
        List.length_pos.mpr hne
      simp [hne, hpos, hty]
  · simp [hty]

/-- Witness for the amended C2 on a two-node graph where the sample document
(year 1900) is linked to the sample theme. -/
theorem C2_witness :
    (([sampleDoc, sampleTheme].map (·.id)).Nodup) ∧
    ((∀ st : GraphState,
        (loadData st [sampleDoc, sampleTheme] [sampleEdge]).nodes =
          calculateAverageYears [sampleDoc, sampleTheme] [sampleEdge]) ∧
     calculateAverageYears [sampleDoc, sampleTheme] [sampleEdge] =
       [sampleDoc, sampleTheme].map (fun n =>
         if (n.type = "theme" ∨ n.type = "person") ∧
             connectedDocYears [sampleDoc, sampleTheme] [sampleEdge] n ≠ [] then
           setAvgYear n (jsRound
             (((connectedDocYears [sampleDoc, sampleTheme] [sampleEdge] n).sum : ℚ) /
              ((connectedDocYears [sampleDoc, sampleTheme] [sampleEdge] n).length : ℚ)))
         else n)) :=
  ⟨by decide, C2_loadData_avgYear [sampleDoc, sampleTheme] [sampleEdge] (by decide)⟩

/-! ## C4 / C8: location grouping

Lemmas about the theme table and the grouping fold. -/

theorem lookupTheme_nil (t' : String) : lookupTheme [] t' = [] := rfl

theorem lookupTheme_cons (t₀ : String) (ds : List JDoc)
    (rest : List (String × List JDoc)) (t' : String) :
    lookupTheme ((t₀, ds) :: rest) t' = if t₀ = t' then ds else lookupTheme rest t' := by
  by_cases h : t₀ = t'
  · simp [lookupTheme, List.find?, h]
  · simp [lookupTheme, List.find?, h]

theorem lookupTheme_addTheme (tbl : List (String × List JDoc)) (t : String) (d : JDoc)
    (t' : String) :
    lookupTheme (addTheme tbl t d) t' =
      lookupTheme tbl t' ++ (if t' = t then [d] else []) := by
  induction tbl with
  | nil =>
    by_cases h : t' = t
    · subst h
      rw [addTheme, lookupTheme_cons, if_pos rfl, lookupTheme_nil, if_pos rfl]
      rfl
    · rw [addTheme, lookupTheme_cons, if_neg (fun he => h he.symm)]
      simp [lookupTheme_nil, h]
  | cons p rest ih =>
    obtain ⟨t₀, ds⟩ := p
    by_cases h0 : t₀ = t
    · subst h0
      rw [addTheme, if_pos rfl]
      by_cases h1 : t₀ = t'
      · subst h1
        rw [lookupTheme_cons, if_pos rfl, lookupTheme_cons, if_pos rfl, if_pos rfl]
      · rw [lookupTheme_cons, if_neg h1, lookupTheme_cons, if_neg h1,
          if_neg (fun he : t' = t₀ => h1 he.symm)]
        simp
    · rw [addTheme, if_neg h0]
      by_cases h1 : t₀ = t'
      · subst h1
        rw [lookupTheme_cons, if_pos rfl, lookupTheme_cons, if_pos rfl,
          if_neg (fun he : t₀ = t => h0 he)]
        simp
      · rw [lookupTheme_cons, if_neg h1, ih, lookupTheme_cons, if_neg h1]

theorem lookupTheme_foldl_addTheme (ts : List String) (d : JDoc)
    (tbl : List (String × List JDoc)) (t : String) :
    lookupTheme (ts.foldl (fun tb t' => addTheme tb t' d) tbl) t =
      lookupTheme tbl t ++ (ts.filter (fun t' => t' = t)).map (fun _ => d) := by
  induction ts generalizing tbl with
  | nil => simp
  | cons t₀ ts ih =>
    rw [List.foldl_cons, ih, lookupTheme_addTheme]
    by_cases h : t₀ = t
    · subst h
      simp [List.filter_cons]
    · have h' : ¬ (t = t₀) := fun he => h he.symm
      simp [List.filter_cons, h, h']

theorem lookupTheme_addThemes (tbl : List (String × List JDoc)) (d : JDoc) (t : String) :
    lookupTheme (addThemes tbl d) t =
      lookupTheme tbl t ++ (d.themes.filter (fun t' => t' = t)).map (fun _ => d) :=
  lookupTheme_foldl_addTheme d.themes d tbl t

theorem themeVal_append_one (P : List JDoc) (d : JDoc) (loc t : String) :
    themeVal (P ++ [d]) loc t =
      themeVal P loc t ++
        (if d.location = loc then (d.themes.filter (fun t' => t' = t)).map (fun _ => d)
         else []) := by
  unfold themeVal
  rw [List.filter_append, List.flatMap_append]
  congr 1
  by_cases h : d.location = loc
  · simp [h]
  · simp [h]

theorem themeVal_nil (P : List JDoc) (loc t : String)
    (h : P.filter (fun d => d.location = loc) = []) : themeVal P loc t = [] := by
  unfold themeVal
  rw [h]
  rfl

theorem addDoc_eq (gs : List LocGroup) (d : JDoc) (hnd : (gs.map (·.name)).Nodup) :
    addDoc gs d =
      if d.location ∈ gs.map (·.name) then
        gs.map (fun g => if g.name = d.location then updGroup g d else g)
      else gs ++ [newGroup d] := by
  induction gs with
  | nil => simp [addDoc]
  | cons g rest ih =>
    simp only [List.map_cons, List.nodup_cons, List.mem_map] at hnd
    by_cases hg : g.name = d.location
    · rw [addDoc, if_pos hg]
      rw [if_pos (by simp [List.mem_cons, hg.symm])]
      rw [List.map_cons, if_pos hg]
      congr 1
      have : ∀ g' ∈ rest, (if g'.name = d.location then updGroup g' d else g') = g' := by
        intro g' hg'
        rw [if_neg]
        intro he
        exact hnd.1 ⟨g', hg', by rw [he, ← hg]⟩
      rw [List.map_congr_left this]
      simp
    · rw [addDoc, if_neg hg, ih hnd.2]
      by_cases hmem : d.location ∈ rest.map (·.name)
      · rw [if_pos hmem, if_pos (by simp [List.mem_cons, hmem]), List.map_cons, if_neg hg]
      · rw [if_neg hmem, if_neg (by
          simp only [List.map_cons, List.mem_cons]
          rintro (he | hm)
          · exact hg he.symm
          · exact hmem hm)]
        rfl

/-- The invariant carried through the grouping fold: group names are the
distinct locations seen so far, each group holds exactly the processed
documents of its location in input order, its theme table matches the
specification-side `themeVal`, and its coordinates/country come from the
first document seen at the location. -/
def GroupsInv (processed : List JDoc) (gs : List LocGroup) : Prop :=
  ((gs.map (·.name)).Nodup) ∧
  (∀ loc : String, (∃ g ∈ gs, g.name = loc) ↔ (∃ d ∈ processed, d.location = loc)) ∧
  (∀ g ∈ gs,
    g.documents = processed.filter (fun d => d.location = g.name) ∧
    (∀ t, lookupTheme g.themes t = themeVal processed g.name t) ∧
    (∃ d₀ ds, g.documents = d₀ :: ds ∧ g.lat = d₀.lat ∧ g.lng = d₀.lng ∧
      g.country = d₀.country))

theorem groupsInv_nil : GroupsInv [] [] := by
  refine ⟨by simp, ?_, by simp⟩
  intro loc
  simp

theorem groupsInv_step (P : List JDoc) (gs : List LocGroup) (d : JDoc)
    (h : GroupsInv P gs) : GroupsInv (P ++ [d]) (addDoc gs d) := by
  obtain ⟨hnd, hcov, hper⟩ := h
  rw [addDoc_eq gs d hnd]
  by_cases hmem : d.location ∈ gs.map (·.name)
  · rw [if_pos hmem]
    have hnames :
        ((gs.map (fun g => if g.name = d.location then updGroup g d else g)).map (·.name))
          = gs.map (·.name) := by
      rw [List.map_map]
      apply List.map_congr_left
      intro g _
      by_cases hg : g.name = d.location
      · simp [hg, updGroup]
      · simp [hg]
    refine ⟨by rw [hnames]; exact hnd, ?_, ?_⟩
    · intro loc
      constructor
      · rintro ⟨g', hg', rfl⟩
        obtain ⟨g, hgmem, rfl⟩ := List.mem_map.mp hg'
        have hn' : (if g.name = d.location then updGroup g d else g).name = g.name := by
          by_cases hg : g.name = d.location
          · simp [hg, updGroup]
          · simp [hg]
        rw [hn']
        obtain ⟨d', hd', hl⟩ := (hcov g.name).mp ⟨g, hgmem, rfl⟩
        exact ⟨d', List.mem_append_left _ hd', hl⟩
      · rintro ⟨d', hd', hl⟩
        rcases List.mem_append.mp hd' with hP | hnew
        · obtain ⟨g, hgmem, hgname⟩ := (hcov loc).mpr ⟨d', hP, hl⟩
          refine ⟨(if g.name = d.location then updGroup g d else g),
            List.mem_map_of_mem _ hgmem, ?_⟩
          by_cases hg2 : g.name = d.location
          · rw [if_pos hg2]
            exact hgname
          · rw [if_neg hg2]
            exact hgname
        · have hd'd : d' = d := by simpa using hnew
          rw [hd'd] at hl
          obtain ⟨g, hgmem, hgname⟩ := List.mem_map.mp hmem
          refine ⟨updGroup g d, ?_, ?_⟩
          · have hmm := List.mem_map_of_mem
              (fun g => if g.name = d.location then updGroup g d else g) hgmem
            simp only at hmm
            rwa [if_pos hgname] at hmm
          · show g.name = loc
            rw [hgname, hl]
    · intro g' hg'
      obtain ⟨g, hgmem, rfl⟩ := List.mem_map.mp hg'
      obtain ⟨hdocs, hthm, d₀, ds, hdd, hlat, hlng, hctry⟩ := hper g hgmem
      by_cases hg : g.name = d.location
      · rw [if_pos hg]
        refine ⟨?_, ?_, ?_⟩
        · show (updGroup g d).documents
            = (P ++ [d]).filter (fun x => x.location = (updGroup g d).name)
          have hn : (updGroup g d).name = g.name := rfl
          rw [hn, List.filter_append]
          show g.documents ++ [d] = _
          rw [hdocs]
          congr 1
          simp [hg.symm]
        · intro t
          show lookupTheme (addThemes g.themes d) t
            = themeVal (P ++ [d]) (updGroup g d).name t
          have hn : (updGroup g d).name = g.name := rfl
          rw [hn, lookupTheme_addThemes, hthm t, themeVal_append_one,
            if_pos hg.symm]
        · refine ⟨d₀, ds ++ [d], ?_, hlat, hlng, hctry⟩
          show g.documents ++ [d] = d₀ :: (ds ++ [d])
          rw [hdd]
          simp
      · rw [if_neg hg]
        refine ⟨?_, ?_, ⟨d₀, ds, hdd, hlat, hlng, hctry⟩⟩
        · rw [List.filter_append]
          have hnil : ([d].filter (fun x => x.location = g.name)) = [] := by
            simp
            exact fun he => hg he.symm
          rw [hnil, List.append_nil]
          exact hdocs
        · intro t
          rw [hthm t, themeVal_append_one, if_neg (fun he => hg he.symm)]
          simp
  · rw [if_neg hmem]
    have hnotg : ¬ ∃ g ∈ gs, g.name = d.location := by
      rintro ⟨g, hgmem, hgname⟩
      exact hmem (List.mem_map.mpr ⟨g, hgmem, hgname⟩)
    have hnotP : ¬ ∃ d' ∈ P, d'.location = d.location :=
      fun hx => hnotg ((hcov d.location).mpr hx)
    have hPfilter : P.filter (fun d' => d'.location = d.location) = [] := by
      rw [List.filter_eq_nil_iff]
      intro d' hd'
      simp only [decide_eq_true_eq]
      exact fun hl => hnotP ⟨d', hd', hl⟩
    refine ⟨?_, ?_, ?_⟩
    · rw [List.map_append]
      refine List.Nodup.append hnd (by simp) ?_
      intro x hx hx2
      have hxd : x = d.location := by simpa [newGroup] using hx2
      rw [hxd] at hx
      exact hmem hx
    · intro loc
      constructor
      · rintro ⟨g', hg', rfl⟩
        rcases List.mem_append.mp hg' with hin | hnew
        · obtain ⟨d', hd', hl⟩ := (hcov g'.name).mp ⟨g', hin, rfl⟩
          exact ⟨d', List.mem_append_left _ hd', hl⟩
        · have hg'd : g' = newGroup d := by simpa using hnew
          subst hg'd
          exact ⟨d, List.mem_append_right _ (by simp), by simp [newGroup]⟩
      · rintro ⟨d', hd', hl⟩
        rcases List.mem_append.mp hd' with hP | hnew
        · obtain ⟨g, hgmem, hgname⟩ := (hcov loc).mpr ⟨d', hP, hl⟩
          exact ⟨g, List.mem_append_left _ hgmem, hgname⟩
        · have hd'd : d' = d := by simpa using hnew
          rw [hd'd] at hl
          exact ⟨newGroup d, List.mem_append_right _ (by simp),
            by rw [← hl]; rfl⟩
    · intro g' hg'
      rcases List.mem_append.mp hg' with hin | hnew
      · obtain ⟨hdocs, hthm, d₀, ds, hdd, hlat, hlng, hctry⟩ := hper g' hin
        have hgneq : d.location ≠ g'.name := by
          intro he
          exact hnotg ⟨g', hin, he.symm⟩
        refine ⟨?_, ?_, ⟨d₀, ds, hdd, hlat, hlng, hctry⟩⟩
        · rw [List.filter_append]
          have hnil : ([d].filter (fun x => x.location = g'.name)) = [] := by
            simp
            exact hgneq
          rw [hnil, List.append_nil]
          exact hdocs
        · intro t
          rw [hthm t, themeVal_append_one, if_neg hgneq]
          simp
      · have hg'd : g' = newGroup d := by simpa using hnew
        subst hg'd
        refine ⟨?_, ?_, ⟨d, [], by simp [newGroup], by simp [newGroup],
          by simp [newGroup], by simp [newGroup]⟩⟩
        · show (newGroup d).documents
            = (P ++ [d]).filter (fun x => x.location = (newGroup d).name)
          have h1 : (newGroup d).name = d.location := rfl
          rw [h1, List.filter_append, hPfilter]
          simp [newGroup]
        · intro t
          show lookupTheme (addThemes [] d) t
            = themeVal (P ++ [d]) (newGroup d).name t
          have h1 : (newGroup d).name = d.location := rfl
          rw [h1, lookupTheme_addThemes, themeVal_append_one,
            themeVal_nil _ _ _ hPfilter, if_pos rfl]
          simp [lookupTheme_nil]

theorem groupsInv_foldl (ds : List JDoc) :
    ∀ (P : List JDoc) (gs : List LocGroup), GroupsInv P gs →
      GroupsInv (P ++ ds) (ds.foldl addDoc gs) := by
  induction ds with
  | nil =>
    intro P gs h
    simpa using h
  | cons d rest ih =>
    intro P gs h
    have h1 := groupsInv_step P gs d h
    have h2 := ih (P ++ [d]) (addDoc gs d) h1
    simpa [List.append_assoc] using h2

theorem buildGroups_inv (docs : List JDoc) : GroupsInv docs (buildGroups docs) := by
  have h := groupsInv_foldl docs [] [] groupsInv_nil
  simpa [buildGroups] using h

theorem sortDate_le_trans (a b c : JDoc)
    (h1 : decide (a.sortDate ≤ b.sortDate) = true)
    (h2 : decide (b.sortDate ≤ c.sortDate) = true) :
    decide (a.sortDate ≤ c.sortDate) = true := by
  simp only [decide_eq_true_eq] at *
  exact le_trans h1 h2

theorem sortDate_le_total (a b : JDoc) :
    (decide (a.sortDate ≤ b.sortDate) || decide (b.sortDate ≤ a.sortDate)) = true := by
  simp only [Bool.or_eq_true, decide_eq_true_eq]
  exact le_total _ _

theorem groupKey_le_trans (a b c : LocGroup)
    (h1 : decide (groupKey a ≤ groupKey b) = true)
    (h2 : decide (groupKey b ≤ groupKey c) = true) :
    decide (groupKey a ≤ groupKey c) = true := by
  simp only [decide_eq_true_eq] at *
  exact le_trans h1 h2

theorem groupKey_le_total (a b : LocGroup) :
    (decide (groupKey a ≤ groupKey b) || decide (groupKey b ≤ groupKey a)) = true := by
  simp only [Bool.or_eq_true, decide_eq_true_eq]
  exact le_total _ _

/-- What survives the two sorts: `regroup` has one group per occurring
location, each holding a `sortDate`-sorted permutation of that location's
documents, the unchanged theme table, the coordinates of the first document
seen at the location, and the groups are ordered by their first document's
`sortDate`. -/
theorem regroup_spec (L : List JDoc) :
    (((regroup L).map (·.name)).Nodup) ∧
    (∀ loc : String, (∃ g ∈ regroup L, g.name = loc) ↔ ∃ d ∈ L, d.location = loc) ∧
    (∀ g ∈ regroup L,
      g.documents.Perm (L.filter (fun d => d.location = g.name)) ∧
      g.documents.Pairwise (fun a b => a.sortDate ≤ b.sortDate) ∧
      (∀ t, lookupTheme g.themes t = themeVal L g.name t) ∧
      (∃ d₀ ds, L.filter (fun d => d.location = g.name) = d₀ :: ds ∧
        g.lat = d₀.lat ∧ g.lng = d₀.lng ∧ g.country = d₀.country)) ∧
    (regroup L).Pairwise (fun a b => groupKey a ≤ groupKey b) := by
  obtain ⟨hnd, hcov, hper⟩ := buildGroups_inv L
  have hperm : (regroup L).Perm ((buildGroups L).map sortGroupDocs) :=
    List.mergeSort_perm _ _
  have hmemiff : ∀ g, g ∈ regroup L ↔ g ∈ (buildGroups L).map sortGroupDocs :=
    fun g => hperm.mem_iff
  have hnames2 : (((buildGroups L).map sortGroupDocs).map (·.name))
      = (buildGroups L).map (·.name) := by
    rw [List.map_map]
    apply List.map_congr_left
    intro g _
    rfl
  refine ⟨?_, ?_, ?_, ?_⟩
  · have h1 : ((regroup L).map (·.name)).Perm
        (((buildGroups L).map sortGroupDocs).map (·.name)) := hperm.map _
    rw [hnames2] at h1
    exact h1.nodup_iff.mpr hnd
  · intro loc
    constructor
    · rintro ⟨g, hg, rfl⟩
      obtain ⟨g₀, hg₀, rfl⟩ := List.mem_map.mp ((hmemiff g).mp hg)
      exact (hcov (sortGroupDocs g₀).name).mp ⟨g₀, hg₀, rfl⟩
    · intro hd
      obtain ⟨g₀, hg₀, hname⟩ := (hcov loc).mpr hd
      exact ⟨sortGroupDocs g₀, (hmemiff _).mpr (List.mem_map_of_mem _ hg₀), hname⟩
  · intro g hg
    obtain ⟨g₀, hg₀, rfl⟩ := List.mem_map.mp ((hmemiff g).mp hg)
    obtain ⟨hdocs, hthm, d₀, ds, hdd, hlat, hlng, hctry⟩ := hper g₀ hg₀
    have hsortperm : (sortGroupDocs g₀).documents.Perm g₀.documents :=
      List.mergeSort_perm _ _
    refine ⟨?_, ?_, ?_, ?_⟩
    · have h2 := hsortperm
      rw [hdocs] at h2
      exact h2
    · have hs := @List.sorted_mergeSort JDoc
        (fun a b : JDoc => decide (a.sortDate ≤ b.sortDate))
        sortDate_le_trans sortDate_le_total g₀.documents
      refine List.Pairwise.imp ?_ hs
      intro a b hab
      exact of_decide_eq_true hab
    · intro t
      exact hthm t
    · refine ⟨d₀, ds, ?_, hlat, hlng, hctry⟩
      show L.filter (fun d => d.location = g₀.name) = d₀ :: ds
      rw [← hdocs]
      exact hdd
  · have hs := @List.sorted_mergeSort LocGroup
      (fun a b : LocGroup => decide (groupKey a ≤ groupKey b))
      groupKey_le_trans groupKey_le_total ((buildGroups L).map sortGroupDocs)
    refine List.Pairwise.imp ?_ hs
    intro a b hab
    exact of_decide_eq_true hab

theorem filter_eq_singleton_count (l : List String) (t : String) (h : l.Nodup) :
    ((l.filter (fun t' => t' = t)).length) = if t ∈ l then 1 else 0 := by
  induction l with
  | nil => simp
  | cons a as ih =>
    simp only [List.nodup_cons] at h
    by_cases ha : a = t
    · subst ha
      have hnil : as.filter (fun t' => t' = a) = [] := by
        rw [List.filter_eq_nil_iff]
        intro x hx
        simp only [decide_eq_true_eq]
        exact fun he => h.1 (he ▸ hx)
      simp [List.filter_cons, hnil]
    · have hta : ¬ t = a := fun he => ha he.symm
      rw [List.filter_cons, if_neg (by simpa using ha), ih h.2]
      have hmm : (t ∈ a :: as) ↔ (t ∈ as) := by
        rw [List.mem_cons]
        exact or_iff_right hta
      by_cases hm : t ∈ as
      · rw [if_pos hm, if_pos (hmm.mpr hm)]
      · rw [if_neg hm, if_neg (fun hx => hm (hmm.mp hx))]

theorem flatMap_theme_length (LL : List JDoc) (t : String)
    (h : ∀ d ∈ LL, d.themes.Nodup) :
    (LL.flatMap (fun d => (d.themes.filter (fun t' => t' = t)).map (fun _ => d))).length
      = (LL.filter (fun d => t ∈ d.themes)).length := by
  induction LL with
  | nil => rfl
  | cons d rest ih =>
    rw [List.flatMap_cons, List.length_append, List.length_map,
      filter_eq_singleton_count d.themes t (h d (by simp)),
      ih (fun d' hd' => h d' (by simp [hd'])), List.filter_cons]
    by_cases hm : t ∈ d.themes
    · rw [if_pos hm, if_pos (by simpa using hm)]
      simp [Nat.add_comm]
    · rw [if_neg hm, if_neg (by simpa using hm)]
      simp

theorem themeVal_length (L : List JDoc) (loc t : String)
    (h : ∀ d ∈ L, d.themes.Nodup) :
    (themeVal L loc t).length
      = ((L.filter (fun d => d.location = loc)).filter (fun d => t ∈ d.themes)).length := by
  unfold themeVal
  exact flatMap_theme_length _ t (fun d hd => h d (List.mem_of_mem_filter hd))

theorem themeVal_mem (L : List JDoc) (loc t : String) (d : JDoc) :
    d ∈ themeVal L loc t ↔ d ∈ L ∧ d.location = loc ∧ t ∈ d.themes := by
  unfold themeVal
  simp only [List.mem_flatMap, List.mem_filter, List.mem_map, decide_eq_true_eq]
  constructor
  · rintro ⟨d', ⟨hd'L, hd'loc⟩, x, hx, rfl⟩
    exact ⟨hd'L, hd'loc, hx.2 ▸ hx.1⟩
  · rintro ⟨hdL, hdloc, htm⟩
    exact ⟨d, ⟨hdL, hdloc⟩, t, ⟨htm, rfl⟩, rfl⟩

/-- C4.  `groupByLocation` yields exactly one group per location occurring in
the journey data; each group's `documents` are exactly that location's
documents sorted ascending by `sortDate`; each theme table entry holds
exactly the group's documents carrying the theme (its length is the theme's
document frequency at the location, for set-valued theme lists); and the
groups are ordered by the `sortDate` of their earliest document. -/
theorem C4_groupByLocation_spec (docs : List JDoc)
    (hthemes : ∀ d ∈ docs, d.themes.Nodup) :
    ((groupByLocation docs).map (·.name)).Nodup ∧
    (∀ loc : String, (∃ g ∈ groupByLocation docs, g.name = loc) ↔
      ∃ d ∈ docs, d.location = loc) ∧
    (∀ g ∈ groupByLocation docs,
      g.documents.Perm (docs.filter (fun d => d.location = g.name)) ∧
      g.documents.Pairwise (fun a b => a.sortDate ≤ b.sortDate)) ∧
    (∀ g ∈ groupByLocation docs, ∀ t,
      (∀ d, d ∈ lookupTheme g.themes t ↔ d ∈ g.documents ∧ t ∈ d.themes) ∧
      (lookupTheme g.themes t).length
        = (g.documents.filter (fun d => t ∈ d.themes)).length) ∧
    (groupByLocation docs).Pairwise (fun a b => groupKey a ≤ groupKey b) := by
  obtain ⟨h1, h2, h3, h4⟩ := regroup_spec docs
  refine ⟨h1, h2, ?_, ?_, h4⟩
  · intro g hg
    obtain ⟨hperm, hsort, _, _⟩ := h3 g hg
    exact ⟨hperm, hsort⟩
  · intro g hg t
    obtain ⟨hperm, -, hthm, -⟩ := h3 g hg
    constructor
    · intro d
      rw [hthm t, themeVal_mem]
      constructor
      · rintro ⟨hdL, hdloc, htm⟩
        refine ⟨hperm.mem_iff.mpr ?_, htm⟩
        exact List.mem_filter.mpr ⟨hdL, by simp [hdloc]⟩
      · rintro ⟨hdg, htm⟩
        obtain ⟨hdL, hdloc⟩ := List.mem_filter.mp (hperm.mem_iff.mp hdg)
        simp only [decide_eq_true_eq] at hdloc
        exact ⟨hdL, hdloc, htm⟩
    · rw [hthm t, themeVal_length docs g.name t hthemes]
      exact ((hperm.filter (fun d => t ∈ d.themes)).length_eq).symm

/-- Sample journey documents for witnesses. -/
def jdoc1 : JDoc :=
  { id := "j1", title := "LETTER TO DADABHAI NAOROJI", location := "Durban",
    lat := -29, lng := 31, country := "South Africa", year := 1894,
    sortDate := "1894-07-05", themes := ["Satyagraha", "Religion"] }

def jdoc2 : JDoc :=
  { id := "j2", title := "LETTER TO THE NATAL MERCURY", location := "Durban",
    lat := -29, lng := 31, country := "South Africa", year := 1896,
    sortDate := "1896-04-12", themes := ["Satyagraha"] }

def jdoc3 : JDoc :=
  { id := "j3", title := "SPEECH AT LONDON", location := "London",
    lat := 51, lng := 0, country := "England", year := 1909,
    sortDate := "1909-07-10", themes := ["Independence"] }

def journeySample : List JDoc := [jdoc1, jdoc2, jdoc3]

/-- Witness for C4 on the sample journey documents. -/
theorem C4_witness :
    (∀ d ∈ journeySample, d.themes.Nodup) ∧
    (((groupByLocation journeySample).map (·.name)).Nodup ∧
     (∀ loc : String, (∃ g ∈ groupByLocation journeySample, g.name = loc) ↔
       ∃ d ∈ journeySample, d.location = loc) ∧
     (∀ g ∈ groupByLocation journeySample,
       g.documents.Perm (journeySample.filter (fun d => d.location = g.name)) ∧
       g.documents.Pairwise (fun a b => a.sortDate ≤ b.sortDate)) ∧
     (∀ g ∈ groupByLocation journeySample, ∀ t,
       (∀ d, d ∈ lookupTheme g.themes t ↔ d ∈ g.documents ∧ t ∈ d.themes) ∧
       (lookupTheme g.themes t).length
         = (g.documents.filter (fun d => t ∈ d.themes)).length) ∧
     (groupByLocation journeySample).Pairwise (fun a b => groupKey a ≤ groupKey b)) :=
  ⟨by decide, C4_groupByLocation_spec journeySample (by decide)⟩

/-- Groups with distinct names that each hold a permutation of their
location's slice of `L`, and that cover every document of `L`, together hold
a permutation of `L`. -/
theorem partition_perm (gs : List LocGroup) :
    ∀ L : List JDoc,
      ((gs.map (·.name)).Nodup) →
      (∀ d ∈ L, ∃ g ∈ gs, g.name = d.location) →
      (∀ g ∈ gs, g.documents.Perm (L.filter (fun x => x.location = g.name))) →
      (gs.flatMap (·.documents)).Perm L := by
  induction gs with
  | nil =>
    intro L _ hcov _
    have hL : L = [] := by
      cases L with
      | nil => rfl
      | cons d rest =>
        obtain ⟨g, hg, -⟩ := hcov d (by simp)
        cases hg
    rw [hL]
    rfl
  | cons g rest ih =>
    intro L hnd hcov hdocs
    simp only [List.map_cons, List.nodup_cons, List.mem_map] at hnd
    have hrest : (rest.flatMap (·.documents)).Perm
        (L.filter (fun x => !(decide (x.location = g.name)))) := by
      apply ih _ hnd.2
      · intro d hd
        have hdL : d ∈ L := List.mem_of_mem_filter hd
        have hdne : ¬ (d.location = g.name) := by
          have h := (List.mem_filter.mp hd).2
          simpa using h
        obtain ⟨g', hg', hgname⟩ := hcov d hdL
        rcases List.mem_cons.mp hg' with rfl | hmem
        · exact absurd hgname.symm hdne
        · exact ⟨g', hmem, hgname⟩
      · intro g' hg'
        have hperm := hdocs g' (List.mem_cons_of_mem _ hg')
        have hname_ne : g'.name ≠ g.name := by
          intro he
          exact hnd.1 ⟨g', hg', he⟩
        have hff : ((L.filter (fun x => !(decide (x.location = g.name)))).filter
            (fun x => x.location = g'.name))
            = L.filter (fun x => x.location = g'.name) := by
          rw [List.filter_filter]
          apply List.filter_congr
          intro x _
          by_cases hx : x.location = g'.name
          · have hxg : ¬ (x.location = g.name) := by
              rw [hx]
              exact hname_ne
            simp [hx, hxg, hname_ne]
          · simp [hx]
        rw [hff]
        exact hperm
    have hg0 := hdocs g (by simp)
    have hcomb : ((g :: rest).flatMap (·.documents)).Perm
        (L.filter (fun x => x.location = g.name) ++
          L.filter (fun x => !(decide (x.location = g.name)))) := by
      rw [List.flatMap_cons]
      exact hg0.append hrest
    exact hcomb.trans (List.filter_append_perm _ L)

/-- C8.  `filterByYearRange` keeps exactly the journey documents whose year
lies in `[startYear, endYear]`; together the rebuilt groups hold each such
document exactly once, in the group named by its location; each group's
`lat`/`lng`/`country` are those of the first filtered document at that
location. -/
theorem C8_filterByYearRange_spec (docs : List JDoc) (s e : Int)
    (hse : s ≤ e) (hnd : docs.Nodup) :
    ((filterByYearRange docs s e).flatMap (·.documents)).Perm
      (docs.filter (inYearRange s e)) ∧
    (∀ d ∈ docs, (∃ g ∈ filterByYearRange docs s e, d ∈ g.documents) ↔
      (s ≤ d.year ∧ d.year ≤ e)) ∧
    (∀ g ∈ filterByYearRange docs s e, ∀ d ∈ g.documents,
      d.location = g.name ∧ s ≤ d.year ∧ d.year ≤ e) ∧
    (∀ d ∈ docs, s ≤ d.year → d.year ≤ e →
      ((filterByYearRange docs s e).flatMap (·.documents)).count d = 1) ∧
    (∀ g ∈ filterByYearRange docs s e, ∃ d₀ ds,
      ((docs.filter (inYearRange s e)).filter (fun d => d.location = g.name))
        = d₀ :: ds ∧
      g.lat = d₀.lat ∧ g.lng = d₀.lng ∧ g.country = d₀.country) := by
  obtain ⟨h1, h2, h3, h4⟩ := regroup_spec (docs.filter (inYearRange s e))
  have hpart : ((filterByYearRange docs s e).flatMap (·.documents)).Perm
      (docs.filter (inYearRange s e)) := by
    apply partition_perm _ _ h1
    · intro d hd
      exact (h2 d.location).mpr ⟨d, hd, rfl⟩
    · intro g hg
      exact (h3 g hg).1
  refine ⟨hpart, ?_, ?_, ?_, ?_⟩
  · intro d hd
    constructor
    · rintro ⟨g, hg, hdg⟩
      obtain ⟨hperm, -, -, -⟩ := h3 g hg
      have hdf := List.mem_of_mem_filter (hperm.mem_iff.mp hdg)
      have hy := (List.mem_filter.mp hdf).2
      simpa [inYearRange] using hy
    · rintro ⟨h1r, h2r⟩
      have hdf : d ∈ docs.filter (inYearRange s e) :=
        List.mem_filter.mpr ⟨hd, by simp [inYearRange, h1r, h2r]⟩
      obtain ⟨g, hg, hgname⟩ := (h2 d.location).mpr ⟨d, hdf, rfl⟩
      obtain ⟨hperm, -, -, -⟩ := h3 g hg
      refine ⟨g, hg, hperm.mem_iff.mpr ?_⟩
      exact List.mem_filter.mpr ⟨hdf, by simp [hgname]⟩
  · intro g hg d hdg
    obtain ⟨hperm, -, -, -⟩ := h3 g hg
    have hdf := hperm.mem_iff.mp hdg
    obtain ⟨hdfil, hloc⟩ := List.mem_filter.mp hdf
    obtain ⟨-, hrange⟩ := List.mem_filter.mp hdfil
    have hr : s ≤ d.year ∧ d.year ≤ e := by simpa [inYearRange] using hrange
    exact ⟨by simpa using hloc, hr.1, hr.2⟩
  · intro d hd h1r h2r
    have hdf : d ∈ docs.filter (inYearRange s e) :=
      List.mem_filter.mpr ⟨hd, by simp [inYearRange, h1r, h2r]⟩
    rw [hpart.count_eq]
    exact List.count_eq_one_of_mem (hnd.filter _) hdf
  · intro g hg
    obtain ⟨-, -, -, d₀, ds, hdd, hlat, hlng, hctry⟩ := h3 g hg
    exact ⟨d₀, ds, hdd, hlat, hlng, hctry⟩

/-- Witness for C8: the sample journey documents restricted to 1894-1896. -/
theorem C8_witness :
    ((1894 : Int) ≤ 1896 ∧ journeySample.Nodup) ∧
    (((filterByYearRange journeySample 1894 1896).flatMap (·.documents)).Perm
       (journeySample.filter (inYearRange 1894 1896)) ∧
     (∀ d ∈ journeySample,
       (∃ g ∈ filterByYearRange journeySample 1894 1896, d ∈ g.documents) ↔
       ((1894 : Int) ≤ d.year ∧ d.year ≤ 1896)) ∧
     (∀ g ∈ filterByYearRange journeySample 1894 1896, ∀ d ∈ g.documents,
       d.location = g.name ∧ (1894 : Int) ≤ d.year ∧ d.year ≤ 1896) ∧
     (∀ d ∈ journeySample, (1894 : Int) ≤ d.year → d.year ≤ 1896 →
       ((filterByYearRange journeySample 1894 1896).flatMap (·.documents)).count d = 1) ∧
     (∀ g ∈ filterByYearRange journeySample 1894 1896, ∃ d₀ ds,
       ((journeySample.filter (inYearRange 1894 1896)).filter
         (fun d => d.location = g.name)) = d₀ :: ds ∧
       g.lat = d₀.lat ∧ g.lng = d₀.lng ∧ g.country = d₀.country)) :=
  ⟨⟨by decide, by decide⟩,
   C8_filterByYearRange_spec journeySample 1894 1896 (by decide) (by decide)⟩

/-! ## C5: `buildHierarchy` builds the category→subcategory→theme tree -/

theorem foldl_append_if {α β : Type _} (c : α → Prop) [DecidablePred c] (g : α → β)
    (l : List α) (init : List β) :
    l.foldl (fun acc x => if c x then acc ++ [g x] else acc) init
      = init ++ (l.filter (fun x => c x)).map g := by
  induction l generalizing init with
  | nil => simp
  | cons x xs ih =>
    rw [List.foldl_cons]
    by_cases hc : c x
    · rw [if_pos hc, ih, List.filter_cons, if_pos (by simpa using hc)]
      simp
    · rw [if_neg hc, ih, List.filter_cons, if_neg (by simpa using hc)]

theorem subsFor_eq (nodes : List GNode) (edges : List GEdge) (ck : String)
    (cat : ThemeCat) :
    subsFor nodes edges ck cat
      = ((cat.themes.filter
            (fun p => (leavesFor nodes edges ck cat.color p).length > 0)).map
          (fun p => subcatNode ck p.1 cat.color p.2
            (leavesFor nodes edges ck cat.color p))) := by
  unfold subsFor
  rw [foldl_append_if (fun p => (leavesFor nodes edges ck cat.color p).length > 0)
    (fun p => subcatNode ck p.1 cat.color p.2 (leavesFor nodes edges ck cat.color p))]
  simp

theorem buildHierarchy_children (nodes : List GNode) (edges : List GEdge)
    (th : List (String × ThemeCat)) :
    (buildHierarchy nodes edges th).children
      = ((th.filter (fun p => (subsFor nodes edges p.1 p.2).length > 0)).map
          (fun p => catNode p.1 p.2 (subsFor nodes edges p.1 p.2))) := by
  have h := foldl_append_if
    (fun p : String × ThemeCat => (subsFor nodes edges p.1 p.2).length > 0)
    (fun p => catNode p.1 p.2 (subsFor nodes edges p.1 p.2)) th []
  simpa [buildHierarchy, RTree.children] using h

theorem foldr_max_le (l : List Nat) (m : Nat) (h : ∀ x ∈ l, x ≤ m) :
    l.foldr max 0 ≤ m := by
  induction l with
  | nil => simp
  | cons x xs ih =>
    rw [List.foldr_cons]
    exact max_le (h x (by simp)) (ih fun y hy => h y (by simp [hy]))

theorem height_mk (nm : List Char) (i : Option String) (v dc : Option Int)
    (c sc col : Option String) (ch : List RTree) :
    RTree.height (.mk nm i v dc c sc col ch)
      = (ch.attach.map (fun c => RTree.height c.1 + 1)).foldr max 0 := by
  rw [RTree.height]

theorem height_le (nm : List Char) (i : Option String) (v dc : Option Int)
    (c sc col : Option String) (ch : List RTree) (k : Nat)
    (h : ∀ x ∈ ch, RTree.height x ≤ k) :
    RTree.height (.mk nm i v dc c sc col ch) ≤ k + 1 := by
  rw [height_mk]
  apply foldr_max_le
  intro x hx
  obtain ⟨a, -, rfl⟩ := List.mem_map.mp hx
  have := h a.1 a.2
  omega

theorem filter_id_singleton (nodes : List GNode) (n : GNode) (hn : n ∈ nodes)
    (hnd : (nodes.map (·.id)).Nodup) :
    nodes.filter (fun m => m.id = n.id) = [n] := by
  induction nodes with
  | nil => cases hn
  | cons a t ih =>
    simp only [List.map_cons, List.nodup_cons, List.mem_map] at hnd
    rcases List.mem_cons.mp hn with heq | hmem
    · rw [List.filter_cons, if_pos (by simp [heq])]
      have hnil : t.filter (fun m => m.id = n.id) = [] := by
        rw [List.filter_eq_nil_iff]
        intro m hm
        simp only [decide_eq_true_eq]
        intro he
        exact hnd.1 ⟨m, hm, by rw [he, heq]⟩
      rw [hnil, heq]
    · have hne : ¬ (a.id = n.id) := fun he => hnd.1 ⟨n, hmem, he.symm⟩
      rw [List.filter_cons, if_neg (by simpa using hne)]
      exact ih hmem hnd.2

theorem length_filter_flatMap {α β : Type _} (f : α → List β) (p : β → Bool)
    (l : List α) :
    ((l.flatMap f).filter p).length
      = (l.map (fun x => ((f x).filter p).length)).sum := by
  induction l with
  | nil => rfl
  | cons x xs ih =>
    rw [List.flatMap_cons, List.filter_append, List.length_append, ih,
      List.map_cons, List.sum_cons]

theorem sum_map_eq_zero {α : Type _} (l : List α) (v : α → Nat)
    (hv : ∀ x ∈ l, v x = 0) : (l.map v).sum = 0 := by
  induction l with
  | nil => rfl
  | cons x xs ih =>
    rw [List.map_cons, List.sum_cons, hv x (by simp), ih fun y hy => hv y (by simp [hy])]

theorem sum_map_eq_one {α : Type _} (key : α → String) (k : String) (l : List α)
    (hnd : (l.map key).Nodup) (v : α → Nat)
    (hv : ∀ x ∈ l, v x = if key x = k then 1 else 0)
    (hmem : ∃ x ∈ l, key x = k) :
    (l.map v).sum = 1 := by
  induction l with
  | nil =>
    obtain ⟨x, hx, -⟩ := hmem
    cases hx
  | cons a as ih =>
    simp only [List.map_cons, List.nodup_cons, List.mem_map] at hnd
    rw [List.map_cons, List.sum_cons, hv a (by simp)]
    by_cases ha : key a = k
    · rw [if_pos ha]
      have hz : (as.map v).sum = 0 := by
        apply sum_map_eq_zero
        intro x hx
        rw [hv x (by simp [hx]), if_neg]
        intro he
        exact hnd.1 ⟨x, hx, by rw [he, ha]⟩
      rw [hz]
    · rw [if_neg ha]
      have hmem' : ∃ x ∈ as, key x = k := by
        obtain ⟨x, hx, hk⟩ := hmem
        rcases List.mem_cons.mp hx with rfl | hxs
        · exact absurd hk ha
        · exact ⟨x, hxs, hk⟩
      rw [ih hnd.2 (fun x hx => hv x (by simp [hx])) hmem']

theorem sum_map_flatMap {α β : Type _} (f : α → List β) (v : β → Nat) (l : List α) :
    ((l.flatMap f).map v).sum = (l.map (fun x => ((f x).map v).sum)).sum := by
  induction l with
  | nil => rfl
  | cons x xs ih =>
    rw [List.flatMap_cons, List.map_append, List.sum_append, ih, List.map_cons,
      List.sum_cons]

theorem height_le' (x : RTree) (k : Nat)
    (h : ∀ c ∈ x.children, RTree.height c ≤ k) : x.height ≤ k + 1 := by
  cases x with
  | mk nm i v dc c sc col ch => exact height_le nm i v dc c sc col ch k h

theorem themeLeaf_height (nodes : List GNode) (edges : List GEdge)
    (ck sk color : String) (t : GNode) :
    (themeLeaf nodes edges ck sk color t).height = 0 := by
  rw [themeLeaf, height_mk]
  rfl

/-- The per-subcategory leaf list holds the theme node `n` exactly when the
pair names `n`'s own category and subcategory, and then exactly once. -/
theorem leaves_count (nodes : List GNode) (edges : List GEdge)
    (n : GNode) (hn : n ∈ nodes) (hids : (nodes.map (·.id)).Nodup)
    (hnth : n.type = "theme") (ck sk : String)
    (hck : propsCategory n = some ck) (hsk : propsSubcategory n = some sk)
    (ck' color : String) (p : String × SubCat) :
    ((leavesFor nodes edges ck' color p).filter
        (fun l => l.nodeId = some n.id)).length
      = if ck' = ck ∧ p.1 = sk then 1 else 0 := by
  unfold leavesFor
  rw [List.filter_map, List.length_map]
  have hpred : ∀ t ∈ themeNodesFor nodes ck' p.1,
      ((fun l : RTree => decide (l.nodeId = some n.id)) ∘
        themeLeaf nodes edges ck' p.1 color) t = decide (t.id = n.id) := by
    intro t _
    simp [themeLeaf, RTree.nodeId]
  rw [List.filter_congr hpred]
  have hchain : (themeNodesFor nodes ck' p.1).filter (fun t => t.id = n.id)
      = (nodes.filter (fun m => m.id = n.id)).filter
          (fun m => m.type = "theme" ∧ propsCategory m = some ck' ∧
            propsSubcategory m = some p.1) := by
    unfold themeNodesFor
    rw [List.filter_filter, List.filter_filter]
    apply List.filter_congr
    intro x _
    exact Bool.and_comm _ _
  rw [hchain, filter_id_singleton nodes n hn hids]
  by_cases hcc : ck' = ck ∧ p.1 = sk
  · obtain ⟨h1, h2⟩ := hcc
    rw [if_pos ⟨h1, h2⟩]
    rw [List.filter_cons]
    rw [if_pos (by simp [hnth, hck, hsk, h1, h2])]
    rfl
  · rw [if_neg hcc]
    have hfalse : ¬ (n.type = "theme" ∧ propsCategory n = some ck' ∧
        propsSubcategory n = some p.1) := by
      rintro ⟨-, hc1, hc2⟩
      rw [hck] at hc1
      rw [hsk] at hc2
      exact hcc ⟨(Option.some.inj hc1).symm, (Option.some.inj hc2).symm⟩
    rw [List.filter_cons, if_neg (by simpa using hfalse)]
    rfl

/-- C5.  `buildHierarchy` produces a rooted tree of height at most 3 whose
included category and subcategory nodes all have non-empty child lists and
whose leaves sit at depth 3; every input theme node whose
`properties.category`/`properties.subcategory` name an entry of the theme
hierarchy appears exactly once among the leaves, and only under the category
and subcategory it names.  Stated for node lists with distinct ids and
hierarchy tables with distinct keys (JS object keys are unique). -/
theorem C5_buildHierarchy_spec
    (nodes : List GNode) (edges : List GEdge) (th : List (String × ThemeCat))
    (hids : (nodes.map (·.id)).Nodup)
    (hkeys : (th.map (·.1)).Nodup)
    (hsubkeys : ∀ p ∈ th, (p.2.themes.map (·.1)).Nodup)
    (n : GNode) (hn : n ∈ nodes) (hnth : n.type = "theme")
    (ck sk : String) (hck : propsCategory n = some ck)
    (hsk : propsSubcategory n = some sk)
    (pc : String × ThemeCat) (hpc : pc ∈ th) (hpck : pc.1 = ck)
    (ps : String × SubCat) (hps : ps ∈ pc.2.themes) (hpsk : ps.1 = sk) :
    (∀ C ∈ (buildHierarchy nodes edges th).children, C.children ≠ [] ∧
       ∀ S ∈ C.children, S.children ≠ [] ∧ ∀ l ∈ S.children, l.children = []) ∧
    (buildHierarchy nodes edges th).height ≤ 3 ∧
    ((((buildHierarchy nodes edges th).children.flatMap RTree.children).flatMap
        RTree.children).filter (fun l => l.nodeId = some n.id)).length = 1 ∧
    (∀ C ∈ (buildHierarchy nodes edges th).children, ∀ S ∈ C.children,
      ∀ l ∈ S.children, l.nodeId = some n.id →
        C.category = some ck ∧ S.subcategory = some sk) := by
  have hmemTheme : n ∈ themeNodesFor nodes ck sk := by
    unfold themeNodesFor
    refine List.mem_filter.mpr ⟨hn, ?_⟩
    simp [hnth, hck, hsk]
  have hcS : (leavesFor nodes edges pc.1 pc.2.color ps).length > 0 := by
    unfold leavesFor
    rw [List.length_map, hpck, hpsk]
    exact List.length_pos.mpr (List.ne_nil_of_mem hmemTheme)
  have hsubmem : ps ∈ pc.2.themes.filter
      (fun q => (leavesFor nodes edges pc.1 pc.2.color q).length > 0) :=
    List.mem_filter.mpr ⟨hps, by simpa using hcS⟩
  have hcC : (subsFor nodes edges pc.1 pc.2).length > 0 := by
    rw [subsFor_eq, List.length_map]
    exact List.length_pos.mpr (List.ne_nil_of_mem hsubmem)
  have hcatmem : pc ∈ th.filter (fun p => (subsFor nodes edges p.1 p.2).length > 0) :=
    List.mem_filter.mpr ⟨hpc, by simpa using hcC⟩
  refine ⟨?_, ?_, ?_, ?_⟩
  · -- shape
    intro C hC
    rw [buildHierarchy_children] at hC
    obtain ⟨pp, hpp, rfl⟩ := List.mem_map.mp hC
    have hppc : (subsFor nodes edges pp.1 pp.2).length > 0 := by
      simpa using (List.mem_filter.mp hpp).2
    constructor
    · show subsFor nodes edges pp.1 pp.2 ≠ []
      intro he
      rw [he] at hppc
      simp at hppc
    · intro S hS
      have hS' : S ∈ subsFor nodes edges pp.1 pp.2 := hS
      rw [subsFor_eq] at hS'
      obtain ⟨q, hq, rfl⟩ := List.mem_map.mp hS'
      have hqc : (leavesFor nodes edges pp.1 pp.2.color q).length > 0 := by
        simpa using (List.mem_filter.mp hq).2
      constructor
      · show leavesFor nodes edges pp.1 pp.2.color q ≠ []
        intro he
        rw [he] at hqc
        simp at hqc
      · intro l hl
        have hl' : l ∈ leavesFor nodes edges pp.1 pp.2.color q := hl
        unfold leavesFor at hl'
        obtain ⟨t, ht, rfl⟩ := List.mem_map.mp hl'
        rfl
  · -- height
    apply height_le'
    intro C hC
    rw [buildHierarchy_children] at hC
    obtain ⟨pp, hpp, rfl⟩ := List.mem_map.mp hC
    apply height_le'
    intro S hS
    have hS' : S ∈ subsFor nodes edges pp.1 pp.2 := hS
    rw [subsFor_eq] at hS'
    obtain ⟨q, hq, rfl⟩ := List.mem_map.mp hS'
    apply height_le'
    intro l hl
    have hl' : l ∈ leavesFor nodes edges pp.1 pp.2.color q := hl
    unfold leavesFor at hl'
    obtain ⟨t, ht, rfl⟩ := List.mem_map.mp hl'
    rw [themeLeaf_height]
  · -- exactly-once count
    rw [buildHierarchy_children, List.flatMap_map, length_filter_flatMap,
      sum_map_flatMap]
    refine sum_map_eq_one (fun pp => pp.1) ck _ ?_ _ ?_ ⟨pc, hcatmem, hpck⟩
    · exact ((List.filter_sublist th).map (·.1)).nodup hkeys
    · intro pp hpp
      show (((catNode pp.1 pp.2 (subsFor nodes edges pp.1 pp.2)).children).map
        (fun S => ((RTree.children S).filter
          (fun l => l.nodeId = some n.id)).length)).sum = _
      show ((subsFor nodes edges pp.1 pp.2).map
        (fun S => ((RTree.children S).filter
          (fun l => l.nodeId = some n.id)).length)).sum = _
      rw [subsFor_eq, List.map_map]
      by_cases hpeq : pp.1 = ck
      · rw [if_pos hpeq]
        have hppc : pp = pc :=
          List.inj_on_of_nodup_map hkeys (List.mem_of_mem_filter hpp) hpc
            (by rw [hpeq, hpck])
        refine sum_map_eq_one (fun q => q.1) sk _ ?_ _ ?_ ?_
        · exact ((List.filter_sublist pp.2.themes).map (·.1)).nodup
            (hsubkeys pp (List.mem_of_mem_filter hpp))
        · intro q hq
          show ((RTree.children (subcatNode pp.1 q.1 pp.2.color q.2
            (leavesFor nodes edges pp.1 pp.2.color q))).filter
              (fun l => l.nodeId = some n.id)).length = _
          show ((leavesFor nodes edges pp.1 pp.2.color q).filter
            (fun l => l.nodeId = some n.id)).length = _
          rw [leaves_count nodes edges n hn hids hnth ck sk hck hsk]
          by_cases hqs : q.1 = sk
          · rw [if_pos ⟨hpeq, hqs⟩, if_pos hqs]
          · rw [if_neg (fun hx => hqs hx.2), if_neg hqs]
        · rw [hppc]
          exact ⟨ps, hsubmem, hpsk⟩
      · rw [if_neg hpeq]
        apply sum_map_eq_zero
        intro q hq
        show ((RTree.children (subcatNode pp.1 q.1 pp.2.color q.2
          (leavesFor nodes edges pp.1 pp.2.color q))).filter
            (fun l => l.nodeId = some n.id)).length = 0
        show ((leavesFor nodes edges pp.1 pp.2.color q).filter
          (fun l => l.nodeId = some n.id)).length = 0
        rw [leaves_count nodes edges n hn hids hnth ck sk hck hsk]
        rw [if_neg (fun hx => hpeq hx.1)]
  · -- only under its own category and subcategory
    intro C hC S hS l hl hid
    rw [buildHierarchy_children] at hC
    obtain ⟨pp, hpp, rfl⟩ := List.mem_map.mp hC
    have hS' : S ∈ subsFor nodes edges pp.1 pp.2 := hS
    rw [subsFor_eq] at hS'
    obtain ⟨q, hq, rfl⟩ := List.mem_map.mp hS'
    have hl' : l ∈ leavesFor nodes edges pp.1 pp.2.color q := hl
    unfold leavesFor at hl'
    obtain ⟨t, ht, rfl⟩ := List.mem_map.mp hl'
    have htid : t.id = n.id := by simpa [themeLeaf, RTree.nodeId] using hid
    unfold themeNodesFor at ht
    have htmem : t ∈ nodes := List.mem_of_mem_filter ht
    have htn : t = n := by
      have hts : t ∈ nodes.filter (fun m => m.id = n.id) :=
        List.mem_filter.mpr ⟨htmem, by simpa using htid⟩
      rw [filter_id_singleton nodes n hn hids] at hts
      simpa using hts
    have hprops := (List.mem_filter.mp ht).2
    simp only [decide_eq_true_eq] at hprops
    obtain ⟨-, hcat, hsub⟩ := hprops
    rw [htn] at hcat hsub
    constructor
    · show some pp.1 = some ck
      rw [← hcat, hck]
    · show some q.1 = some sk
      rw [← hsub, hsk]

/-- A theme node carrying category/subcategory properties, for the C5
witness. -/
def radialTheme : GNode :=
  { id := "t2", type := "theme", label := "Truth".toList,
    properties := some { GProps.empty with
      name := some "Truth".toList, category := some "phil",
      subcategory := some "ethics" } }

def sampleSubCat : SubCat := { name := "Ethics" }

def sampleCat : ThemeCat :=
  { name := "Philosophical", color := "#FF1493",
    themes := [("ethics", sampleSubCat)] }

def sampleTH : List (String × ThemeCat) := [("phil", sampleCat)]

/-- Witness for C5: a one-theme hierarchy. -/
theorem C5_witness :
    (([radialTheme].map (·.id)).Nodup ∧ (sampleTH.map (·.1)).Nodup ∧
     (∀ p ∈ sampleTH, (p.2.themes.map (·.1)).Nodup) ∧
     radialTheme ∈ [radialTheme] ∧ radialTheme.type = "theme" ∧
     propsCategory radialTheme = some "phil" ∧
     propsSubcategory radialTheme = some "ethics" ∧
     ("phil", sampleCat) ∈ sampleTH ∧
     ("ethics", sampleSubCat) ∈ sampleCat.themes) ∧
    ((∀ C ∈ (buildHierarchy [radialTheme] [] sampleTH).children, C.children ≠ [] ∧
        ∀ S ∈ C.children, S.children ≠ [] ∧ ∀ l ∈ S.children, l.children = []) ∧
     (buildHierarchy [radialTheme] [] sampleTH).height ≤ 3 ∧
     ((((buildHierarchy [radialTheme] [] sampleTH).children.flatMap
          RTree.children).flatMap RTree.children).filter
        (fun l => l.nodeId = some radialTheme.id)).length = 1 ∧
     (∀ C ∈ (buildHierarchy [radialTheme] [] sampleTH).children,
       ∀ S ∈ C.children, ∀ l ∈ S.children,
         l.nodeId = some radialTheme.id →
           C.category = some "phil" ∧ S.subcategory = some "ethics")) :=
  ⟨⟨by decide, by decide, by decide, by decide, by decide, by decide, by decide,
    by decide, by decide⟩,
   C5_buildHierarchy_spec [radialTheme] [] sampleTH (by decide) (by decide)
     (by decide) radialTheme (by decide) (by decide) "phil" "ethics" (by decide)
     (by decide) ("phil", sampleCat) (by decide) (by decide)
     ("ethics", sampleSubCat) (by decide) (by decide)⟩

/-! ## C3: the click toggle and the children/_children invariant -/

theorem countList_append (a b : List HNode) :
    countList (a ++ b) = countList a + countList b := by
  induction a with
  | nil => simp [countList]
  | cons c cs ih =>
    rw [List.cons_append]
    simp only [countList, ih]
    omega

theorem clickNode_clickNode (n : HNode) (hwf : TreeWF n) (l : List HNode)
    (hch : n.childrenOf = some l) (hdoc : n.docOf = false) :
    clickNode (clickNode n) = n := by
  cases n with
  | mk nm dc ch pk =>
    cases hwf with
    | mk _ _ _ _ hboth hc hp =>
      simp only [HNode.childrenOf] at hch
      simp only [HNode.docOf] at hdoc
      subst hch
      subst hdoc
      have hpk : pk = none := by
        cases pk with
        | none => rfl
        | some m => exact absurd ⟨by simp, by simp⟩ hboth
      subst hpk
      simp [clickNode]

theorem clickNode_count (n : HNode) (hwf : TreeWF n) :
    countNodes (clickNode n) = countNodes n := by
  cases n with
  | mk nm dc ch pk =>
    cases hwf with
    | mk _ _ _ _ hboth hc hp =>
      cases dc with
      | true => simp [clickNode]
      | false =>
        cases ch with
        | some l =>
          have hpk : pk = none := by
            cases pk with
            | none => rfl
            | some m => exact absurd ⟨by simp, by simp⟩ hboth
          subst hpk
          simp [clickNode, countNodes, countOpt]
        | none =>
          cases pk with
          | some l =>
            simp [clickNode, countNodes, countOpt]
          | none => simp [clickNode]

theorem clickStep_count : ∀ s s' : HNode, ClickStep s s' → TreeWF s →
    countNodes s' = countNodes s := by
  intro s s' h
  induction h with
  | here n =>
    intro hwf
    exact clickNode_count n hwf
  | child nm dc pk l₁ l₂ c c' hstep ih =>
    intro hwf
    cases hwf with
    | mk _ _ _ _ hboth hc hp =>
      have hcwf : TreeWF c := hc c (by simp)
      have hcount := ih hcwf
      simp only [countNodes, countOpt]
      rw [countList_append, countList_append]
      simp only [countList]
      omega

theorem clickNode_wf (n : HNode) (hwf : TreeWF n) : TreeWF (clickNode n) := by
  cases n with
  | mk nm dc ch pk =>
    cases hwf with
    | mk _ _ _ _ hboth hc hp =>
      cases dc with
      | true =>
        simp only [clickNode, if_pos]
        exact TreeWF.mk _ _ _ _ hboth hc hp
      | false =>
        cases ch with
        | some l =>
          show TreeWF (.mk nm false none (some l))
          refine TreeWF.mk _ _ _ _ (by simp) (by simp) ?_
          intro x hx
          exact hc x hx
        | none =>
          cases pk with
          | some l =>
            show TreeWF (.mk nm false (some l) none)
            refine TreeWF.mk _ _ _ _ (by simp) ?_ (by simp)
            intro x hx
            exact hp x hx
          | none =>
            show TreeWF (.mk nm false none none)
            exact TreeWF.mk _ _ _ _ (by simp) (by simp) (by simp)

theorem clickStep_wf : ∀ s s' : HNode, ClickStep s s' → TreeWF s → TreeWF s' := by
  intro s s' h
  induction h with
  | here n =>
    intro hwf
    exact clickNode_wf n hwf
  | child nm dc pk l₁ l₂ c c' hstep ih =>
    intro hwf
    cases hwf with
    | mk _ _ _ _ hboth hc hp =>
      refine TreeWF.mk _ _ _ _ (by simpa using hboth) ?_ ?_
      · intro x hx
        simp only [Option.getD] at hx ⊢
        rcases List.mem_append.mp hx with h1 | h2
        · exact hc x (by simp [h1])
        · rcases List.mem_cons.mp h2 with rfl | h3
          · exact ih (hc c (by simp))
          · exact hc x (by simp [h3])
      · intro x hx
        exact hp x hx

theorem forall₂_mem_right {α β : Type _} {R : α → β → Prop} :
    ∀ {l : List α} {l' : List β}, List.Forall₂ R l l' →
      ∀ {x : β}, x ∈ l' → ∃ c ∈ l, R c x := by
  intro l l' h
  induction h with
  | nil =>
    intro x hx
    cases hx
  | cons hR hF ih =>
    intro x hx
    rcases List.mem_cons.mp hx with rfl | h2
    · exact ⟨_, by simp, hR⟩
    · obtain ⟨c, hc, hRc⟩ := ih h2
      exact ⟨c, by simp [hc], hRc⟩

theorem collapseDesc_wf_bounded (k : Nat) : ∀ n n' : HNode, sizeOf n < k →
    CollapseDesc n n' → TreeWF n → TreeWF n' := by
  induction k with
  | zero =>
    intro n n' h
    omega
  | succ k ih =>
    intro n n' hsz hcd hwf
    cases hcd with
    | noKids nm dc pk =>
      cases hwf with
      | mk _ _ _ _ hboth hc hp =>
        exact TreeWF.mk _ _ _ _ (by simp) (by simp) (by simp)
    | withKids nm dc pk l l' hf =>
      cases hwf with
      | mk _ _ _ _ hboth hc hp =>
        refine TreeWF.mk _ _ _ _ (by simp) (by simp) ?_
        intro x hx
        simp only [Option.getD] at hx
        obtain ⟨c, hcmem, hcd'⟩ := forall₂_mem_right hf hx
        refine ih c x ?_ hcd' (hc c (by simpa using hcmem))
        have h1 := List.sizeOf_lt_of_mem hcmem
        simp only [HNode.mk.sizeOf_spec] at hsz
        simp only [Option.some.sizeOf_spec] at hsz
        omega

theorem collapseDesc_wf (n n' : HNode) (hcd : CollapseDesc n n') (hwf : TreeWF n) :
    TreeWF n' :=
  collapseDesc_wf_bounded (sizeOf n + 1) n n' (by omega) hcd hwf

theorem resetStep_wf (s s' : HNode) (h : ResetStep s s') (hwf : TreeWF s) :
    TreeWF s' := by
  cases h with
  | noKids nm dc pk => exact hwf
  | withKids nm dc pk l l' hf =>
    cases hwf with
    | mk _ _ _ _ hboth hc hp =>
      refine TreeWF.mk _ _ _ _ (by simpa using hboth) ?_ ?_
      · intro x hx
        simp only [Option.getD] at hx
        obtain ⟨c, hcmem, hcd⟩ := forall₂_mem_right hf hx
        exact collapseDesc_wf c x hcd (hc c (by simpa using hcmem))
      · intro x hx
        exact hp x hx

theorem hierarchyOf_wf_bounded (k : Nat) : ∀ d : TData, sizeOf d < k →
    TreeWF (hierarchyOf d) := by
  induction k with
  | zero =>
    intro d h
    omega
  | succ k ih =>
    intro d hsz
    cases d with
    | mk nm dc cs =>
      rw [hierarchyOf]
      refine TreeWF.mk _ _ _ _ ?_ ?_ ?_
      · rintro ⟨h1, h2⟩
        simp at h2
      · intro x hx
        by_cases hemp : cs.isEmpty
        · simp [hemp] at hx
        · simp only [hemp, if_false, Option.getD] at hx
          obtain ⟨c, -, rfl⟩ := List.mem_map.mp hx
          refine ih c.1 ?_
          have h1 := List.sizeOf_lt_of_mem c.2
          simp only [TData.mk.sizeOf_spec] at hsz
          omega
      · intro x hx
        simp at hx

theorem hierarchyOf_wf (d : TData) : TreeWF (hierarchyOf d) :=
  hierarchyOf_wf_bounded (sizeOf d + 1) d (by omega)

theorem treeReaches_wf (s s' : HNode) (h : TreeReaches s s') (hwf : TreeWF s) :
    TreeWF s' := by
  induction h with
  | refl => exact hwf
  | tail hsteps hstep ih =>
    rcases hstep with hc | hr
    · exact clickStep_wf _ _ hc ih
    · exact resetStep_wf _ _ hr ih

/-- C3.  The click toggle parks `children` in `_children` and restores it
exactly: on a well-formed non-document node with visible children, clicking
twice returns the original node; a click anywhere in the rendered tree never
creates or destroys a node (the total node count through both lists is
preserved); and in every state reachable from the initial collapsed
hierarchy by clicks and resets, at most one of `children` and `_children` is
non-null on every node. -/
theorem C3_click_toggle_spec :
    (∀ (n : HNode) (l : List HNode), TreeWF n → n.childrenOf = some l →
      n.docOf = false → clickNode (clickNode n) = n) ∧
    (∀ s s' : HNode, TreeWF s → ClickStep s s' →
      countNodes s' = countNodes s) ∧
    (∀ (d : TData) (s₀ s : HNode), ResetStep (hierarchyOf d) s₀ →
      TreeReaches s₀ s → TreeWF s) := by
  refine ⟨?_, ?_, ?_⟩
  · intro n l hwf hch hdoc
    exact clickNode_clickNode n hwf l hch hdoc
  · intro s s' hwf h
    exact clickStep_count s s' h hwf
  · intro d s₀ s hreset hreach
    exact treeReaches_wf s₀ s hreach (resetStep_wf _ _ hreset (hierarchyOf_wf d))

def tLeaf : HNode := .mk "B" false none none

def tNode : HNode := .mk "A" false (some [tLeaf]) none

def tRootData : TData := .mk "root" false []

def tRootH : HNode := .mk "root" false none none

/-- Witness for C3 on a two-node tree and a leaf-only hierarchy. -/
theorem C3_witness :
    TreeWF tNode ∧ tNode.childrenOf = some [tLeaf] ∧ tNode.docOf = false ∧
    clickNode (clickNode tNode) = tNode ∧
    countNodes (clickNode tNode) = countNodes tNode ∧
    ResetStep (hierarchyOf tRootData) tRootH ∧ TreeWF tRootH := by
  have hleaf : TreeWF tLeaf := TreeWF.mk _ _ _ _ (by simp) (by simp) (by simp)
  have hwf : TreeWF tNode := by
    refine TreeWF.mk _ _ _ _ (by simp) ?_ (by simp)
    intro c hc
    simp only [Option.getD, List.mem_singleton] at hc
    subst hc
    exact hleaf
  have he : hierarchyOf tRootData = tRootH := by
    show hierarchyOf (.mk "root" false []) = _
    rw [hierarchyOf]
    rfl
  have hres : ResetStep (hierarchyOf tRootData) tRootH := by
    rw [he]
    exact ResetStep.noKids "root" false none
  exact ⟨hwf, rfl, rfl,
    C3_click_toggle_spec.1 tNode [tLeaf] hwf rfl rfl,
    C3_click_toggle_spec.2.1 tNode (clickNode tNode) hwf (ClickStep.here tNode),
    hres,
    C3_click_toggle_spec.2.2 tRootData tRootH tRootH hres
      Relation.ReflTransGen.refl⟩

end GandhiViz
